import Mathlib

/-!
# Verification of the nphysics constrained-dynamics core

A shallow embedding, in Lean 4, of the parts of the nphysics physics
engine that the specification claims talk about:

* the velocity-level SOR-Prox solver (`src/solver/sor_prox.rs`),
* the non-linear position SOR-Prox (`src/solver/nonlinear_sor_prox.rs`),
* the contact-manifold filter and force-generator loop of `World::step`
  (`src/world/world.rs`),
* the rigid body (`src/object/rigid_body.rs`),
* the FEM deformable volume (`src/object/fem_volume.rs`).

Scalars of the generic `N: Real` parameter are modelled by `ℝ`.  Flat
`DVector`/slice buffers are modelled by functions `ℕ → ℝ`, and dense
matrices of dynamic size by functions `ℕ → ℕ → ℝ`.
-/

set_option autoImplicit false

namespace Nphysics

noncomputable section

/-! ## Velocity-level SOR-Prox (`src/solver/sor_prox.rs`) -/

/-- Dot product of a slice of the flat `jacobians` buffer (starting at
`jId`, of length `dim`) with the rows `id .. id+dim` of `mj_lambda`
(`jacobian.dot(&mj_lambda.rows_generic(id, dim))`). -/
def dotSlice (jac : ℕ → ℝ) (jId : ℕ) (mj : ℕ → ℝ) (id dim : ℕ) : ℝ :=
  ∑ i ∈ Finset.range dim, jac (jId + i) * mj (id + i)

/-- `mj_lambda.rows_generic_mut(id, dim).axpy(a, &weighted_jacobian, 1)`:
add `a` times the weighted-jacobian slice starting at `wjId` to the rows
`id .. id+dim` of `mj_lambda`. -/
def axpySlice (mj : ℕ → ℝ) (a : ℝ) (jac : ℕ → ℝ) (wjId id dim : ℕ) : ℕ → ℝ :=
  fun k => if id ≤ k ∧ k < id + dim then mj k + a * jac (wjId + (k - id)) else mj k

/-- `na::clamp(val, min, max)` as implemented by nalgebra (the `na`
dependency of the sources): `if val > min { if val < max { val } else
{ max } } else { min }`. -/
def naClamp (val mn mx : ℝ) : ℝ :=
  if mn < val then (if val < mx then val else mx) else mn

/-- A unilateral velocity constraint row (`UnilateralConstraint` of
`solver/constraint.rs`, as consumed by `sor_prox.rs`): assembly ids of
its two bodies, their DOF counts, offsets of its jacobian and
weighted-jacobian slices, right-hand side, compliance and accumulated
impulse. -/
structure UnilateralConstraint where
  assemblyId1 : ℕ
  assemblyId2 : ℕ
  ndofs1 : ℕ
  ndofs2 : ℕ
  jId1 : ℕ
  jId2 : ℕ
  wjId1 : ℕ
  wjId2 : ℕ
  rhs : ℝ
  r : ℝ
  impulse : ℝ

/-- Impulse limits of a bilateral constraint (`ImpulseLimits`):
independent `[min, max]` bounds, or bounds dependent on the impulse of a
unilateral constraint through a Coulomb friction coefficient. -/
inductive ImpulseLimits where
  | independent (min max : ℝ)
  | dependent (dependency : ℕ) (coeff : ℝ)

/-- A bilateral velocity constraint row (`BilateralConstraint`). -/
structure BilateralConstraint where
  assemblyId1 : ℕ
  assemblyId2 : ℕ
  ndofs1 : ℕ
  ndofs2 : ℕ
  jId1 : ℕ
  jId2 : ℕ
  wjId1 : ℕ
  wjId2 : ℕ
  limits : ImpulseLimits
  rhs : ℝ
  r : ℝ
  impulse : ℝ

/-- `SORProx::solve_unilateral`: compute
`dimpulse = J₁·Δv₁ + J₂·Δv₂ + rhs`, replace the impulse by
`sup(0, impulse - r·dimpulse)`, and add `dlambda·wj` to the `Δv` rows of
the two bodies.  Returns the updated constraint and `mj_lambda`. -/
def solveUnilateral (jac : ℕ → ℝ) (c : UnilateralConstraint) (mj : ℕ → ℝ) :
    UnilateralConstraint × (ℕ → ℝ) :=
  let dimpulse := dotSlice jac c.jId1 mj c.assemblyId1 c.ndofs1
    + dotSlice jac c.jId2 mj c.assemblyId2 c.ndofs2 + c.rhs
  let newImpulse := max 0 (c.impulse - c.r * dimpulse)
  let dlambda := newImpulse - c.impulse
  let mj1 := axpySlice mj dlambda jac c.wjId1 c.assemblyId1 c.ndofs1
  let mj2 := axpySlice mj1 dlambda jac c.wjId2 c.assemblyId2 c.ndofs2
  ({ c with impulse := newImpulse }, mj2)

/-- Impulse of `unilateral[dependency]` read by the `Dependent` branch of
`SORProx::solve_bilateral` (out-of-range reads, which panic in the
source, default to `0` here; theorems about this lookup carry an
in-bounds hypothesis). -/
def lookupImpulse (uni : List UnilateralConstraint) (dep : ℕ) : ℝ :=
  match uni.get? dep with
  | some c => c.impulse
  | none => 0

/-- `SORProx::solve_bilateral`.  For `Independent` limits, clamp
`impulse - r·dimpulse` to `[min, max]`.  For `Dependent` limits with
`μ = coeff · unilateral[dependency].impulse`: if `μ`'s source impulse is
zero, undo this constraint's own contribution to `Δv` (when non-zero),
zero the impulse and skip; otherwise clamp to `[-μ, +μ]`. -/
def solveBilateral (uni : List UnilateralConstraint) (jac : ℕ → ℝ)
    (c : BilateralConstraint) (mj : ℕ → ℝ) : BilateralConstraint × (ℕ → ℝ) :=
  match c.limits with
  | ImpulseLimits.independent mn mx =>
    let dimpulse := dotSlice jac c.jId1 mj c.assemblyId1 c.ndofs1
      + dotSlice jac c.jId2 mj c.assemblyId2 c.ndofs2 + c.rhs
    let newImpulse := naClamp (c.impulse - c.r * dimpulse) mn mx
    let dlambda := newImpulse - c.impulse
    let mj1 := axpySlice mj dlambda jac c.wjId1 c.assemblyId1 c.ndofs1
    let mj2 := axpySlice mj1 dlambda jac c.wjId2 c.assemblyId2 c.ndofs2
    ({ c with impulse := newImpulse }, mj2)
  | ImpulseLimits.dependent dep coeff =>
    let impulse := lookupImpulse uni dep
    if impulse = 0 then
      if c.impulse ≠ 0 then
        let mj1 := axpySlice mj (-c.impulse) jac c.wjId1 c.assemblyId1 c.ndofs1
        let mj2 := axpySlice mj1 (-c.impulse) jac c.wjId2 c.assemblyId2 c.ndofs2
        ({ c with impulse := 0 }, mj2)
      else (c, mj)
    else
      let maxImpulse := coeff * impulse
      let minImpulse := -maxImpulse
      let dimpulse := dotSlice jac c.jId1 mj c.assemblyId1 c.ndofs1
        + dotSlice jac c.jId2 mj c.assemblyId2 c.ndofs2 + c.rhs
      let newImpulse := naClamp (c.impulse - c.r * dimpulse) minImpulse maxImpulse
      let dlambda := newImpulse - c.impulse
      let mj1 := axpySlice mj dlambda jac c.wjId1 c.assemblyId1 c.ndofs1
      let mj2 := axpySlice mj1 dlambda jac c.wjId2 c.assemblyId2 c.ndofs2
      ({ c with impulse := newImpulse }, mj2)

/-- `SORProx::setup_unilateral`: warm-start seeding; when the
constraint's accumulated impulse is non-zero, add `impulse·wj` to the
`Δv` rows of its two bodies. -/
def setupUnilateral (jac : ℕ → ℝ) (c : UnilateralConstraint) (mj : ℕ → ℝ) : ℕ → ℝ :=
  if c.impulse ≠ 0 then
    axpySlice (axpySlice mj c.impulse jac c.wjId1 c.assemblyId1 c.ndofs1)
      c.impulse jac c.wjId2 c.assemblyId2 c.ndofs2
  else mj

/-- `SORProx::setup_bilateral` (same seeding as the unilateral case). -/
def setupBilateral (jac : ℕ → ℝ) (c : BilateralConstraint) (mj : ℕ → ℝ) : ℕ → ℝ :=
  if c.impulse ≠ 0 then
    axpySlice (axpySlice mj c.impulse jac c.wjId1 c.assemblyId1 c.ndofs1)
      c.impulse jac c.wjId2 c.assemblyId2 c.ndofs2
  else mj

/-- The in-flight state of `SORProx::solve`: the unilateral and
bilateral constraint arrays and the global velocity-delta vector
`mj_lambda` (the ground variants and body-internal constraints, which no
claim mentions, are left out: they touch neither array). -/
structure SORState where
  uni : List UnilateralConstraint
  bil : List BilateralConstraint
  mj : ℕ → ℝ

/-- The unilateral loop of `SORProx::step`: solve each unilateral
constraint in order, threading `mj_lambda`. -/
def solveUnilateralList (jac : ℕ → ℝ) :
    List UnilateralConstraint → (ℕ → ℝ) → List UnilateralConstraint × (ℕ → ℝ)
  | [], mj => ([], mj)
  | c :: rest, mj =>
    let cm := solveUnilateral jac c mj
    let restm := solveUnilateralList jac rest cm.2
    (cm.1 :: restm.1, restm.2)

/-- The bilateral loop of `SORProx::step`: solve each bilateral
constraint in order against the (already solved, fixed) unilateral
array, threading `mj_lambda`. -/
def solveBilateralList (uni : List UnilateralConstraint) (jac : ℕ → ℝ) :
    List BilateralConstraint → (ℕ → ℝ) → List BilateralConstraint × (ℕ → ℝ)
  | [], mj => ([], mj)
  | c :: rest, mj =>
    let cm := solveBilateral uni jac c mj
    let restm := solveBilateralList uni jac rest cm.2
    (cm.1 :: restm.1, restm.2)

/-- `SORProx::step`: one sweep — all unilateral rows first, then all
bilateral rows (which read the unilateral impulses just produced). -/
def sorStep (jac : ℕ → ℝ) (s : SORState) : SORState :=
  let unim := solveUnilateralList jac s.uni s.mj
  let bilm := solveBilateralList unim.1 jac s.bil unim.2
  ⟨unim.1, bilm.1, bilm.2⟩

/-- The setup phase of `SORProx::solve`: seed `mj_lambda` from every
warm-started (non-zero) impulse. -/
def sorSetup (jac : ℕ → ℝ) (s : SORState) : SORState :=
  let mj1 := s.uni.foldl (fun mj c => setupUnilateral jac c mj) s.mj
  let mj2 := s.bil.foldl (fun mj c => setupBilateral jac c mj) mj1
  ⟨s.uni, s.bil, mj2⟩

/-- `SORProx::solve`: setup, then `max_velocity_iterations` sweeps. -/
def sorSolve (jac : ℕ → ℝ) (maxVelocityIterations : ℕ) (s : SORState) : SORState :=
  (sorStep jac)^[maxVelocityIterations] (sorSetup jac s)

/-! ### Lemmas about the velocity-level solver -/

/-- Warm-start contribution of one unilateral row to entry `k` of
`mj_lambda`: `impulse · wj` over the rows of each of its two bodies. -/
def uniSeedContrib (jac : ℕ → ℝ) (c : UnilateralConstraint) (k : ℕ) : ℝ :=
  (if c.assemblyId1 ≤ k ∧ k < c.assemblyId1 + c.ndofs1 then
    c.impulse * jac (c.wjId1 + (k - c.assemblyId1)) else 0)
  + (if c.assemblyId2 ≤ k ∧ k < c.assemblyId2 + c.ndofs2 then
    c.impulse * jac (c.wjId2 + (k - c.assemblyId2)) else 0)

/-- Warm-start contribution of one bilateral row to entry `k` of
`mj_lambda`. -/
def bilSeedContrib (jac : ℕ → ℝ) (c : BilateralConstraint) (k : ℕ) : ℝ :=
  (if c.assemblyId1 ≤ k ∧ k < c.assemblyId1 + c.ndofs1 then
    c.impulse * jac (c.wjId1 + (k - c.assemblyId1)) else 0)
  + (if c.assemblyId2 ≤ k ∧ k < c.assemblyId2 + c.ndofs2 then
    c.impulse * jac (c.wjId2 + (k - c.assemblyId2)) else 0)

lemma setupUnilateral_apply (jac : ℕ → ℝ) (c : UnilateralConstraint) (mj : ℕ → ℝ)
    (k : ℕ) : setupUnilateral jac c mj k = mj k + uniSeedContrib jac c k := by
  unfold setupUnilateral uniSeedContrib axpySlice
  by_cases h : c.impulse = 0
  · simp [h]
  · simp only [h, ne_eq, not_false_eq_true, if_true]
    split_ifs <;> ring

lemma setupBilateral_apply (jac : ℕ → ℝ) (c : BilateralConstraint) (mj : ℕ → ℝ)
    (k : ℕ) : setupBilateral jac c mj k = mj k + bilSeedContrib jac c k := by
  unfold setupBilateral bilSeedContrib axpySlice
  by_cases h : c.impulse = 0
  · simp [h]
  · simp only [h, ne_eq, not_false_eq_true, if_true]
    split_ifs <;> ring

lemma foldl_setupUnilateral_apply (jac : ℕ → ℝ) (l : List UnilateralConstraint) :
    ∀ (mj : ℕ → ℝ) (k : ℕ),
      (l.foldl (fun mj c => setupUnilateral jac c mj) mj) k
        = mj k + (l.map (fun c => uniSeedContrib jac c k)).sum := by
  induction l with
  | nil => simp
  | cons c t ih =>
    intro mj k
    simp only [List.foldl_cons, List.map_cons, List.sum_cons]
    rw [ih, setupUnilateral_apply]
    ring

lemma foldl_setupBilateral_apply (jac : ℕ → ℝ) (l : List BilateralConstraint) :
    ∀ (mj : ℕ → ℝ) (k : ℕ),
      (l.foldl (fun mj c => setupBilateral jac c mj) mj) k
        = mj k + (l.map (fun c => bilSeedContrib jac c k)).sum := by
  induction l with
  | nil => simp
  | cons c t ih =>
    intro mj k
    simp only [List.foldl_cons, List.map_cons, List.sum_cons]
    rw [ih, setupBilateral_apply]
    ring

lemma solveUnilateral_impulse_nonneg (jac : ℕ → ℝ) (c : UnilateralConstraint)
    (mj : ℕ → ℝ) : 0 ≤ (solveUnilateral jac c mj).1.impulse :=
  le_max_left 0 _

lemma mem_solveUnilateralList_nonneg (jac : ℕ → ℝ) :
    ∀ (l : List UnilateralConstraint) (mj : ℕ → ℝ),
      ∀ c' ∈ (solveUnilateralList jac l mj).1, 0 ≤ c'.impulse := by
  intro l
  induction l with
  | nil => intro mj c' h; simp [solveUnilateralList] at h
  | cons c t ih =>
    intro mj c' h
    simp only [solveUnilateralList, List.mem_cons] at h
    rcases h with h | h
    · exact h ▸ solveUnilateral_impulse_nonneg jac c mj
    · exact ih _ c' h

lemma sorStep_uni (jac : ℕ → ℝ) (s : SORState) :
    (sorStep jac s).uni = (solveUnilateralList jac s.uni s.mj).1 := rfl

lemma sorStep_uni_nonneg (jac : ℕ → ℝ) (s : SORState) :
    ∀ c' ∈ (sorStep jac s).uni, 0 ≤ c'.impulse := by
  intro c' h
  exact mem_solveUnilateralList_nonneg jac s.uni s.mj c' h

lemma lookupImpulse_nonneg (uni : List UnilateralConstraint)
    (h : ∀ c ∈ uni, 0 ≤ c.impulse) (dep : ℕ) : 0 ≤ lookupImpulse uni dep := by
  unfold lookupImpulse
  cases hu : uni.get? dep with
  | none => simp
  | some c => exact h c (List.get?_mem hu)

lemma naClamp_abs_le (x mu : ℝ) (h : 0 ≤ mu) : |naClamp x (-mu) mu| ≤ mu := by
  unfold naClamp
  split_ifs with h1 h2
  · exact abs_le.2 ⟨by linarith, by linarith⟩
  · exact abs_le.2 ⟨by linarith, le_refl mu⟩
  · exact abs_le.2 ⟨le_refl (-mu), by linarith⟩

lemma solveBilateral_limits (uni : List UnilateralConstraint) (jac : ℕ → ℝ)
    (c : BilateralConstraint) (mj : ℕ → ℝ) :
    (solveBilateral uni jac c mj).1.limits = c.limits := by
  rcases hl : c.limits with _ | _
  · simp [solveBilateral, hl]
  · simp only [solveBilateral, hl]
    split_ifs <;> simp [hl]

lemma mem_solveBilateralList (uni : List UnilateralConstraint) (jac : ℕ → ℝ) :
    ∀ (l : List BilateralConstraint) (mj : ℕ → ℝ),
      ∀ c' ∈ (solveBilateralList uni jac l mj).1,
        ∃ c mj0, c' = (solveBilateral uni jac c mj0).1 := by
  intro l
  induction l with
  | nil => intro mj c' h; simp [solveBilateralList] at h
  | cons c t ih =>
    intro mj c' h
    simp only [solveBilateralList, List.mem_cons] at h
    rcases h with h | h
    · exact ⟨c, mj, h⟩
    · exact ih _ c' h

/-- The friction bound for a single solved bilateral row: if the
unilateral array has non-negative impulses, a row with `Dependent`
limits leaves `solve_bilateral` with
`|impulse| ≤ coeff · unilateral[dependency].impulse`. -/
lemma solveBilateral_dependent_bound (uni : List UnilateralConstraint) (jac : ℕ → ℝ)
    (c : BilateralConstraint) (mj : ℕ → ℝ) (dep : ℕ) (coeff : ℝ)
    (hlim : c.limits = ImpulseLimits.dependent dep coeff)
    (hcoeff : 0 ≤ coeff)
    (huni : ∀ u ∈ uni, 0 ≤ u.impulse) :
    |(solveBilateral uni jac c mj).1.impulse| ≤ coeff * lookupImpulse uni dep := by
  simp only [solveBilateral, hlim]
  split_ifs with h1 h2
  · simp [h1]
  · have hc : c.impulse = 0 := not_not.mp h2
    simp [h1, hc]
  · have hpos : 0 ≤ lookupImpulse uni dep := lookupImpulse_nonneg uni huni dep
    have hmu : 0 ≤ coeff * lookupImpulse uni dep := mul_nonneg hcoeff hpos
    exact naClamp_abs_le _ _ hmu

/-! ### Claim theorems: velocity-level SOR-Prox -/

/-- A concrete unilateral constraint row used by witnesses. -/
def witnessUnilateralRow : UnilateralConstraint :=
  ⟨0, 0, 0, 0, 0, 0, 0, 0, 0, 1, 2⟩

/-- A concrete friction (dependent-limits) bilateral row used by
witnesses. -/
def witnessBilateralRow : BilateralConstraint :=
  ⟨0, 0, 0, 0, 0, 0, 0, 0, ImpulseLimits.dependent 0 (1/2), 0, 1, 7⟩

/-- A concrete solver state used by witnesses. -/
def witnessSORState : SORState :=
  ⟨[witnessUnilateralRow], [witnessBilateralRow], fun _ => 0⟩

/-- **C1.** `SORProx::solve` seeds `Δv` (`mj_lambda`) with `Σ impulse·wj`
over the warm-started rows (the zero-impulse test of
`setup_unilateral`/`setup_bilateral` skips rows whose contribution is
zero anyway); each sweep replaces each unilateral impulse by
`max(0, impulse − r·(J·Δv + rhs))` (the assembled `rhs` carries the
`J·v` term of the spec's `δ = J·(v + Δv) + rhs`) and adds
`(a_new − a_old)·wj` to the `Δv` rows of the two bodies; consequently
after every sweep — in particular after `solve` with
`max_velocity_iterations ≥ 1` — every unilateral impulse is
non-negative. -/
theorem sorprox_unilateral_impulses_nonneg (jac : ℕ → ℝ) (s : SORState) :
    (∀ k : ℕ, (sorSetup jac s).mj k
        = s.mj k + ((s.uni.map (fun c => uniSeedContrib jac c k)).sum
          + (s.bil.map (fun c => bilSeedContrib jac c k)).sum))
    ∧ (∀ (c : UnilateralConstraint) (mj : ℕ → ℝ),
        (solveUnilateral jac c mj).1.impulse
          = max 0 (c.impulse - c.r * (dotSlice jac c.jId1 mj c.assemblyId1 c.ndofs1
              + dotSlice jac c.jId2 mj c.assemblyId2 c.ndofs2 + c.rhs))
        ∧ (solveUnilateral jac c mj).2
          = axpySlice
              (axpySlice mj ((solveUnilateral jac c mj).1.impulse - c.impulse) jac
                c.wjId1 c.assemblyId1 c.ndofs1)
              ((solveUnilateral jac c mj).1.impulse - c.impulse) jac
              c.wjId2 c.assemblyId2 c.ndofs2)
    ∧ (∀ t : SORState, ∀ k : ℕ, 1 ≤ k →
        ∀ c' ∈ ((sorStep jac)^[k] t).uni, 0 ≤ c'.impulse)
    ∧ (∀ iters : ℕ, 1 ≤ iters →
        ∀ c' ∈ (sorSolve jac iters s).uni, 0 ≤ c'.impulse) := by
  refine ⟨?_, ?_, ?_, ?_⟩
  · intro k
    show (s.bil.foldl (fun mj c => setupBilateral jac c mj)
      (s.uni.foldl (fun mj c => setupUnilateral jac c mj) s.mj)) k = _
    rw [foldl_setupBilateral_apply, foldl_setupUnilateral_apply]
    ring
  · intro c mj
    exact ⟨rfl, rfl⟩
  · intro t k hk c' h
    obtain ⟨k', rfl⟩ := Nat.exists_eq_add_of_le hk
    rw [Nat.add_comm, Function.iterate_succ_apply'] at h
    exact sorStep_uni_nonneg jac _ c' h
  · intro iters hiters c' h
    obtain ⟨k', rfl⟩ := Nat.exists_eq_add_of_le hiters
    unfold sorSolve at h
    rw [Nat.add_comm, Function.iterate_succ_apply'] at h
    exact sorStep_uni_nonneg jac _ c' h

/-- Witness for C1: a concrete one-iteration solve. -/
theorem sorprox_unilateral_impulses_nonneg_witness :
    (1 : ℕ) ≤ 1 ∧
      (∀ c' ∈ (sorSolve (fun _ => 0) 1 witnessSORState).uni, 0 ≤ c'.impulse) :=
  ⟨le_refl 1,
    (sorprox_unilateral_impulses_nonneg (fun _ => 0) witnessSORState).2.2.2
      1 (le_refl 1)⟩

/-- **C2.** Coulomb-friction bilateral rows: with
`μ = coeff · unilateral[dependency].impulse`, when the dependency's
impulse is zero the row's impulse is zeroed (undoing its `Δv`
contribution when it was non-zero) and the row is skipped; otherwise the
new impulse is `clamp(impulse − r·δ, −μ, +μ)`.  Consequently, after
every sweep, every bilateral row with `Dependent` limits and `coeff ≥ 0`
satisfies `|impulse| ≤ coeff · unilateral[dependency].impulse`. -/
theorem sorprox_friction_impulse_bounded (jac : ℕ → ℝ) (s : SORState) :
    (∀ (uni : List UnilateralConstraint) (c : BilateralConstraint) (mj : ℕ → ℝ)
        (dep : ℕ) (coeff : ℝ),
        c.limits = ImpulseLimits.dependent dep coeff →
        lookupImpulse uni dep = 0 →
        (solveBilateral uni jac c mj).1.impulse = 0
        ∧ (c.impulse ≠ 0 → (solveBilateral uni jac c mj).2
            = axpySlice (axpySlice mj (-c.impulse) jac c.wjId1 c.assemblyId1 c.ndofs1)
                (-c.impulse) jac c.wjId2 c.assemblyId2 c.ndofs2))
    ∧ (∀ (uni : List UnilateralConstraint) (c : BilateralConstraint) (mj : ℕ → ℝ)
        (dep : ℕ) (coeff : ℝ),
        c.limits = ImpulseLimits.dependent dep coeff →
        lookupImpulse uni dep ≠ 0 →
        (solveBilateral uni jac c mj).1.impulse
          = naClamp (c.impulse - c.r * (dotSlice jac c.jId1 mj c.assemblyId1 c.ndofs1
              + dotSlice jac c.jId2 mj c.assemblyId2 c.ndofs2 + c.rhs))
            (-(coeff * lookupImpulse uni dep)) (coeff * lookupImpulse uni dep))
    ∧ (∀ k : ℕ, 1 ≤ k →
        ∀ c' ∈ ((sorStep jac)^[k] (sorSetup jac s)).bil,
        ∀ (dep : ℕ) (coeff : ℝ),
          c'.limits = ImpulseLimits.dependent dep coeff → 0 ≤ coeff →
          |c'.impulse| ≤ coeff *
            lookupImpulse ((sorStep jac)^[k] (sorSetup jac s)).uni dep) := by
  refine ⟨?_, ?_, ?_⟩
  · intro uni c mj dep coeff hlim hu
    constructor
    · simp only [solveBilateral, hlim]
      split_ifs with h1
      · rfl
      · exact not_not.mp h1
    · intro hc
      simp only [solveBilateral, hlim]
      split_ifs
      rfl
  · intro uni c mj dep coeff hlim hu
    simp only [solveBilateral, hlim]
    split_ifs with h1 h2
    · exact absurd h1 hu
    · exact absurd h1 hu
    · rfl
  · intro k hk c' hmem dep coeff hlim hcoeff
    obtain ⟨k', rfl⟩ := Nat.exists_eq_add_of_le hk
    rw [Nat.add_comm, Function.iterate_succ_apply'] at hmem ⊢
    set t := (sorStep jac)^[k'] (sorSetup jac s) with ht
    have huni : ∀ u ∈ (sorStep jac t).uni, 0 ≤ u.impulse := sorStep_uni_nonneg jac t
    have hbil : (sorStep jac t).bil
        = (solveBilateralList (solveUnilateralList jac t.uni t.mj).1 jac t.bil
            (solveUnilateralList jac t.uni t.mj).2).1 := rfl
    rw [hbil] at hmem
    obtain ⟨c0, mj0, rfl⟩ := mem_solveBilateralList _ jac t.bil _ c' hmem
    have hlim0 : c0.limits = ImpulseLimits.dependent dep coeff := by
      rw [← solveBilateral_limits (solveUnilateralList jac t.uni t.mj).1 jac c0 mj0]
      exact hlim
    exact solveBilateral_dependent_bound _ jac c0 mj0 dep coeff hlim0 hcoeff
      (fun u hu => huni u hu)

/-- Witness for C2: a concrete one-sweep solve with one friction row. -/
theorem sorprox_friction_impulse_bounded_witness :
    (1 : ℕ) ≤ 1 ∧
      (∀ c' ∈ ((sorStep (fun _ => 0))^[1]
          (sorSetup (fun _ => 0) witnessSORState)).bil,
        ∀ (dep : ℕ) (coeff : ℝ),
          c'.limits = ImpulseLimits.dependent dep coeff → 0 ≤ coeff →
          |c'.impulse| ≤ coeff * lookupImpulse
            ((sorStep (fun _ => 0))^[1]
              (sorSetup (fun _ => 0) witnessSORState)).uni dep) :=
  ⟨le_refl 1,
    (sorprox_friction_impulse_bounded (fun _ => 0) witnessSORState).2.2
      1 (le_refl 1)⟩

/-! ## Non-linear position SOR-Prox (`src/solver/nonlinear_sor_prox.rs`) -/

/-- The integration parameters recognized by the solvers
(`IntegrationParameters`). -/
structure IntegrationParameters where
  dt : ℝ
  erp : ℝ
  allowedLinearError : ℝ
  allowedAngularError : ℝ
  maxLinearCorrection : ℝ
  maxAngularCorrection : ℝ
  maxStabilizationMultiplier : ℝ
  maxVelocityIterations : ℕ
  maxPositionIterations : ℕ

/-- The `rhs`/`r` update of `NonlinearSORProx::update_contact_constraint`,
given the depth of the reprojected contact and the `inv_r` accumulated by
`fill_constraint_geometry`:
`rhs = sup((−depth + allowed_linear_error)·erp, −max_linear_correction)`;
when `rhs ≥ 0` the constraint is skipped (`return false`); otherwise the
source sets `r` inside `if false { r = max_stabilization_multiplier }
else { r = 1/inv_r }` — the capping branch is disabled in the source. -/
def updateContactConstraintRhsR (params : IntegrationParameters)
    (depth invR : ℝ) : Option (ℝ × ℝ) :=
  let rhs := max ((-depth + params.allowedLinearError) * params.erp)
    (-params.maxLinearCorrection)
  if 0 ≤ rhs then none
  else
    let r := if False then params.maxStabilizationMultiplier else 1 / invR
    some (rhs, r)

/-- The `rhs`/`r`/impulse computation of `NonlinearSORProx::solve_generic`
for one generated position constraint with raw right-hand side `rawRhs`
and compliance `r`:
`rhs = sup((raw_rhs + allowed_*_error)·erp, −max_*_correction)` (angular
or linear variant); the `if false { constraint.r =
max_stabilization_multiplier }` branch is disabled in the source, so the
applied `r` is the generator's own; the row is applied (impulse
`−rhs·r`) only when `rhs < 0`. -/
def solveGenericRhsR (params : IntegrationParameters) (isAngular : Bool)
    (rawRhs r : ℝ) : Option (ℝ × ℝ) :=
  let rhs := if isAngular then
      max ((rawRhs + params.allowedAngularError) * params.erp)
        (-params.maxAngularCorrection)
    else
      max ((rawRhs + params.allowedLinearError) * params.erp)
        (-params.maxLinearCorrection)
  let rUsed := if False then params.maxStabilizationMultiplier else r
  if rhs < 0 then some (rhs, rUsed) else none

/-- **C3 (amended).** In the non-linear position SOR-Prox, the
stabilization factor actually used is `1/inv_r` for contact constraints
and the generator's own `r` for generic constraints: the
`max_stabilization_multiplier` cap appears only inside a disabled
`if false` branch in the source, so `r` is never capped. -/
theorem nonlinear_sorprox_r_uncapped (params : IntegrationParameters) :
    (∀ (depth invR : ℝ) (p : ℝ × ℝ),
      updateContactConstraintRhsR params depth invR = some p → p.2 = 1 / invR)
    ∧ (∀ (isAngular : Bool) (rawRhs r : ℝ) (p : ℝ × ℝ),
      solveGenericRhsR params isAngular rawRhs r = some p → p.2 = r) := by
  constructor
  · intro depth invR p h
    unfold updateContactConstraintRhsR at h
    simp only [if_false] at h
    split_ifs at h
    first
      | exact Option.noConfusion h
      | (rw [Option.some.injEq] at h; rw [← h])
  · intro isAngular rawRhs r p h
    unfold solveGenericRhsR at h
    simp only [if_false] at h
    split_ifs at h <;>
      first
        | exact Option.noConfusion h
        | (rw [Option.some.injEq] at h; rw [← h])

/-- Witness for C3's amended theorem: a concrete solved contact with
`inv_r = 1/2`. -/
theorem nonlinear_sorprox_r_uncapped_witness :
    updateContactConstraintRhsR
        ⟨1, 1, 0, 0, 10, 10, 1, 8, 3⟩ 1 (1/2) = some (-1, 2) ∧
      ((-1 : ℝ), (2 : ℝ)).2 = 1 / (1/2) :=
  ⟨by
    unfold updateContactConstraintRhsR
    norm_num,
   (nonlinear_sorprox_r_uncapped ⟨1, 1, 0, 0, 10, 10, 1, 8, 3⟩).1 1 (1/2) (-1, 2)
     (by unfold updateContactConstraintRhsR; norm_num)⟩

/-- **C3 counterexample.** With `max_stabilization_multiplier = 1` and an
accumulated `inv_r = 1/2`, `update_contact_constraint` solves the
constraint with `r = 2 > 1`: the `r` actually used exceeds
`params.max_stabilization_multiplier`, contradicting the claim that `r`
is capped by it. -/
theorem nonlinear_sorprox_r_exceeds_cap :
    updateContactConstraintRhsR ⟨1, 1, 0, 0, 10, 10, 1, 8, 3⟩ 1 (1/2)
        = some (-1, 2) ∧
      (⟨1, 1, 0, 0, 10, 10, 1, 8, 3⟩ : IntegrationParameters).maxStabilizationMultiplier
        < 2 := by
  constructor
  · unfold updateContactConstraintRhsR
    norm_num
  · norm_num

/-! ## `World::step`: the contact-manifold filter and the force-generator
loop (`src/world/world.rs`) -/

/-- Body status (`BodyStatus`). -/
inductive BodyStatus where
  | dynamic
  | «static»
  | kinematic
  | disabled
  deriving DecidableEq

/-- What `World::step`'s manifold filter reads from a body: its status,
DOF count and activation energy. -/
structure BodyView where
  status : BodyStatus
  ndofs : ℕ
  activationEnergy : ℝ

/-- Modelled from the spec: `Body::status_dependent_ndofs` (the `Body`
trait implementation is not among the sources) — "0 when
Static/Disabled, else `ndofs`". -/
def statusDependentNdofs (b : BodyView) : ℕ :=
  match b.status with
  | BodyStatus.static => 0
  | BodyStatus.disabled => 0
  | _ => b.ndofs

/-- Modelled from the spec: `Body::is_active` (not among the sources) —
the activation record's energy accumulator is non-zero. -/
def isActive (b : BodyView) : Prop :=
  b.activationEnergy ≠ 0

/-- The condition under which `World::step` pushes a contact manifold
onto the list handed to the constraint solver:
`b1.status() != Disabled && b2.status() != Disabled
 && ((b1.status_dependent_ndofs() != 0 && b1.is_active())
  || (b2.status_dependent_ndofs() != 0 && b2.is_active()))`. -/
def manifoldKept (b1 b2 : BodyView) : Prop :=
  b1.status ≠ BodyStatus.disabled ∧ b2.status ≠ BodyStatus.disabled
    ∧ ((statusDependentNdofs b1 ≠ 0 ∧ isActive b1)
      ∨ (statusDependentNdofs b2 ≠ 0 ∧ isActive b2))

open Classical in
/-- The manifold-collection loop of `World::step`: of all contact
manifolds (each tagged with its two bodies), exactly those satisfying
`manifoldKept` are pushed and handed to `solver.step`. -/
def filterContactManifolds (ms : List (BodyView × BodyView)) :
    List (BodyView × BodyView) :=
  ms.filter fun p => decide (manifoldKept p.1 p.2)

/-- The claim's filtering rule, written from the spec's words: drop a
pair only when both sides are Disabled or both have zero
`status_dependent_ndofs`. -/
def specManifoldKept (b1 b2 : BodyView) : Prop :=
  ¬(b1.status = BodyStatus.disabled ∧ b2.status = BodyStatus.disabled)
    ∧ ¬(statusDependentNdofs b1 = 0 ∧ statusDependentNdofs b2 = 0)

/-- **C4 (amended).** A contact manifold is handed to the constraint
solver iff neither of its bodies is Disabled *and* at least one of them
has non-zero `status_dependent_ndofs` and is active.  This is strictly
stronger than the claimed rule (drop only when both are Disabled or both
have zero DOFs): every kept manifold satisfies the claimed rule, but not
conversely. -/
theorem world_manifold_filter (ms : List (BodyView × BodyView)) :
    (∀ p, p ∈ filterContactManifolds ms ↔ p ∈ ms ∧ manifoldKept p.1 p.2)
    ∧ (∀ b1 b2 : BodyView, manifoldKept b1 b2 → specManifoldKept b1 b2) := by
  constructor
  · intro p
    simp [filterContactManifolds]
  · intro b1 b2 h
    obtain ⟨h1, h2, h3⟩ := h
    refine ⟨fun hb => h1 hb.1, fun hz => ?_⟩
    rcases h3 with ⟨hn, _⟩ | ⟨hn, _⟩
    · exact hn hz.1
    · exact hn hz.2

/-- Witness for C4's amended theorem: a pair of active dynamic bodies is
kept, and keeping implies the claimed (weaker) rule. -/
theorem world_manifold_filter_witness :
    manifoldKept ⟨BodyStatus.dynamic, 6, 1⟩ ⟨BodyStatus.dynamic, 6, 1⟩
      ∧ specManifoldKept ⟨BodyStatus.dynamic, 6, 1⟩ ⟨BodyStatus.dynamic, 6, 1⟩ := by
  have hkept : manifoldKept ⟨BodyStatus.dynamic, 6, 1⟩ ⟨BodyStatus.dynamic, 6, 1⟩ := by
    refine ⟨by simp, by simp, Or.inl ⟨by simp [statusDependentNdofs], ?_⟩⟩
    show (1 : ℝ) ≠ 0
    norm_num
  exact ⟨hkept, (world_manifold_filter []).2 _ _ hkept⟩

/-- **C4 counterexample.** A pair of a Disabled body and an active
dynamic body: the claim says the manifold is kept, but `World::step`
drops it (the filter requires *neither* body to be Disabled). -/
theorem world_manifold_filter_drops_half_disabled_pair :
    specManifoldKept ⟨BodyStatus.disabled, 6, 1⟩ ⟨BodyStatus.dynamic, 6, 1⟩
      ∧ ¬manifoldKept ⟨BodyStatus.disabled, 6, 1⟩ ⟨BodyStatus.dynamic, 6, 1⟩ := by
  constructor
  · constructor
    · intro h
      exact absurd h.2 (by simp)
    · intro h
      have : (6 : ℕ) = 0 := h.2
      simp at this
  · intro h
    exact h.1 rfl

/-- Modelled from the spec: a force generator — "an object with
`apply(params, bodies) → should_keep_alive: bool`".  Its internal state
(a `ℕ` here) and its effect on the body set `β` are abstracted into
`applyFn`; `ConstantAcceleration::apply`
(`src/force_generator/constant_acceleration.rs`) is one instance, which
prunes handles of removed parts, pushes forces, and always returns
`true`. -/
structure ForceGeneratorModel (β : Type) where
  state : ℕ
  applyFn : ℕ → β → ℕ × β × Bool

/-- One `apply(params, bodies)` call: returns the mutated generator, the
mutated bodies, and the `should_keep_alive` flag. -/
def ForceGeneratorModel.apply {β : Type} (g : ForceGeneratorModel β) (bodies : β) :
    ForceGeneratorModel β × β × Bool :=
  let r := g.applyFn g.state bodies
  ({ g with state := r.1 }, r.2.1, r.2.2)

/-- The force-generator loop of `World::step`:
`for gen in &mut self.forces { let _ = gen.1.apply(&self.params, &mut self.bodies); }` —
each generator is applied in order and its returned keep-alive flag is
discarded (`let _ =`); the slab of generators keeps every (mutated)
generator. -/
def stepForceGenerators {β : Type} :
    List (ForceGeneratorModel β) → β → List (ForceGeneratorModel β) × β
  | [], bodies => ([], bodies)
  | g :: rest, bodies =>
    let r := g.apply bodies
    let rr := stepForceGenerators rest r.2.1
    (r.1 :: rr.1, rr.2)

/-- **C9 (amended).** `World::step` ignores the `should_keep_alive`
value returned by `ForceGenerator::apply`: the generator list after the
loop has exactly one (mutated) generator per generator before it, so a
generator returning `false` remains stored and is invoked again on
subsequent steps.  Generators leave the world only through
`World::remove_force_generator`. -/
theorem world_keeps_force_generators {β : Type} :
    ∀ (gens : List (ForceGeneratorModel β)) (bodies : β),
      (stepForceGenerators gens bodies).1.length = gens.length := by
  intro gens
  induction gens with
  | nil => intro bodies; rfl
  | cons g rest ih =>
    intro bodies
    simp only [stepForceGenerators, List.length_cons]
    rw [ih]

/-- **C9 counterexample.** A generator whose `apply` returns `false` is
still stored in the world after the step loop (the claim says it is
dropped): the post-step generator list still has length 1. -/
theorem world_step_does_not_drop_dead_generator :
    ((⟨0, fun s b => (s, b, false)⟩ : ForceGeneratorModel Unit).apply ()).2.2 = false
      ∧ (stepForceGenerators [(⟨0, fun s b => (s, b, false)⟩ : ForceGeneratorModel Unit)] ()).1.length = 1 :=
  ⟨rfl, rfl⟩

/-! ## Rigid bodies (`src/object/rigid_body.rs`)

The `math` module of the repository (types `Vector`, `Point`, `Force`,
`Velocity`, `Inertia`, `Isometry`) is not among the sources; its
operations are modelled from the spec (§3 "Rigid body", §4.2) and from
the nalgebra operations the source calls. -/

/-- A 3-vector (`Vector<N>` / `Point<N>` in 3D). -/
abbrev Vec3 := Fin 3 → ℝ

/-- A 3×3 matrix. -/
abbrev Mat3 := Matrix (Fin 3) (Fin 3) ℝ

/-- Cross product of 3-vectors. -/
def cross (a b : Vec3) : Vec3 :=
  fun i => match i with
  | 0 => a 1 * b 2 - a 2 * b 1
  | 1 => a 2 * b 0 - a 0 * b 2
  | 2 => a 0 * b 1 - a 1 * b 0

/-- Dot product of 3-vectors. -/
def dot3 (a b : Vec3) : ℝ := ∑ i : Fin 3, a i * b i

/-- A spatial (6-DOF) quantity: `Force<N>`, `Velocity<N>` and the
`SpatialVector<N>` jacobian mask all hold a linear and an angular
3-vector. -/
structure SpatialVec where
  linear : Vec3
  angular : Vec3

/-- The flat `as_vector()` view: entries `0..3` are linear, `3..6`
angular. -/
def SpatialVec.vec6 (v : SpatialVec) (i : Fin 6) : ℝ :=
  if h : (i : ℕ) < 3 then v.linear ⟨i, h⟩
  else v.angular ⟨(i : ℕ) - 3, by omega⟩

/-- Dot product of the flat 6-vector views. -/
def dotSV (v w : SpatialVec) : ℝ :=
  dot3 v.linear w.linear + dot3 v.angular w.angular

/-- `v.cmpy(1, a, b, 1)` (nalgebra): `v += a ∘ b` componentwise. -/
def SpatialVec.cmpy (v a b : SpatialVec) : SpatialVec :=
  ⟨fun i => v.linear i + a.linear i * b.linear i,
   fun i => v.angular i + a.angular i * b.angular i⟩

/-- `component_mul_assign` with a mask. -/
def SpatialVec.maskBy (v m : SpatialVec) : SpatialVec :=
  ⟨fun i => v.linear i * m.linear i, fun i => v.angular i * m.angular i⟩

/-- The zero spatial vector (`Force::zero()` / `Velocity::zero()`). -/
def SpatialVec.zero : SpatialVec := ⟨fun _ => 0, fun _ => 0⟩

/-- `velocity * dt`. -/
def SpatialVec.smul (v : SpatialVec) (t : ℝ) : SpatialVec :=
  ⟨fun i => v.linear i * t, fun i => v.angular i * t⟩

/-- Modelled from the spec: the world-frame (possibly augmented) mass
operator `Inertia<N>` of a rigid body — a scalar linear (mass) part and
a 3×3 angular part. -/
structure Inertia where
  linear : ℝ
  angular : Mat3

/-- Modelled from the spec: `Inertia * Force` — apply the operator
blockwise (`M⁻¹Jᵀ` uses exactly this). -/
def Inertia.mulForce (I : Inertia) (f : SpatialVec) : SpatialVec :=
  ⟨fun i => f.linear i * I.linear, I.angular.mulVec f.angular⟩

/-- `Inertia::mass()`: the scalar linear part. -/
def Inertia.mass (I : Inertia) : ℝ := I.linear

/-- Modelled from the spec: `Inertia::inverse()` — invert blockwise; a
zero mass or a singular angular block inverts to zero (Mathlib's
`Matrix.inv` is zero on singular matrices). -/
def Inertia.inverse (I : Inertia) : Inertia :=
  ⟨if I.linear = 0 then 0 else 1 / I.linear, I.angular⁻¹⟩

/-- Modelled from the spec: `Inertia::transformed(isometry)` — the mass
is frame-invariant and the angular block is conjugated by the rotation. -/
def Inertia.transformed (I : Inertia) (rot : Mat3) : Inertia :=
  ⟨I.linear, rot * I.angular * rot.transpose⟩

/-- `Inertia + Inertia` (used by `add_local_inertia_and_com`). -/
def Inertia.add (I J : Inertia) : Inertia :=
  ⟨I.linear + J.linear, I.angular + J.angular⟩

/-- An isometry (`Isometry<N>`): rotation and translation; acting on a
point is `R·p + t`. -/
structure Iso3 where
  rotation : Mat3
  translation : Vec3

/-- Isometry composition. -/
def Iso3.comp (a b : Iso3) : Iso3 :=
  ⟨a.rotation * b.rotation, a.rotation.mulVec b.translation + a.translation⟩

/-- Apply an isometry to a point. -/
def Iso3.apply (a : Iso3) (p : Vec3) : Vec3 :=
  a.rotation.mulVec p + a.translation

/-- Apply an isometry to a vector (rotation only; `isometry * vector`). -/
def Iso3.applyVec (a : Iso3) (v : Vec3) : Vec3 :=
  a.rotation.mulVec v

/-- `Translation::from_vector`. -/
def Iso3.translationIso (t : Vec3) : Iso3 := ⟨1, t⟩

/-- The identity isometry. -/
def identityIso : Iso3 := ⟨1, 0⟩

/-- The cross-product matrix of a 3-vector. -/
def crossMatrix (v : Vec3) : Mat3 :=
  Matrix.of fun i j =>
    match i, j with
    | 0, 0 => 0     | 0, 1 => -v 2 | 0, 2 => v 1
    | 1, 0 => v 2   | 1, 1 => 0    | 1, 2 => -v 0
    | 2, 0 => -v 1  | 2, 1 => v 0  | 2, 2 => 0

/-- Modelled from the spec: nalgebra's `Rotation::new(axisangle)` —
Rodrigues' rotation from a scaled axis. -/
def rotationOfScaledAxis (w : Vec3) : Mat3 :=
  let theta := Real.sqrt (∑ i : Fin 3, w i ^ 2)
  if theta = 0 then 1
  else
    let axis : Vec3 := fun i => w i / theta
    let K := crossMatrix axis
    1 + Real.sin theta • K + (1 - Real.cos theta) • (K * K)

/-- The per-body lazy-update bitset (`BodyUpdateStatus`). -/
structure BodyUpdateStatus where
  positionChanged : Bool
  velocityChanged : Bool
  localComChanged : Bool
  localInertiaChanged : Bool
  statusChanged : Bool

/-- Kinds of force application (`ForceType`). -/
inductive ForceType where
  | force
  | impulse
  | accelerationChange
  | velocityChange

/-- The rigid body state (`RigidBody<N>`), 3D variant. -/
structure RigidBody where
  position : Iso3
  velocity : SpatialVec
  localInertia : Inertia
  inertia : Inertia
  localCom : Vec3
  com : Vec3
  augmentedMass : Inertia
  invAugmentedMass : Inertia
  externalForces : SpatialVec
  acceleration : SpatialVec
  status : BodyStatus
  activationEnergy : ℝ
  activationThreshold : Option ℝ
  jacobianMask : SpatialVec
  companionId : ℕ
  updateStatus : BodyUpdateStatus

/-- `RigidBody::set_position`: flag the change, store the isometry, and
refresh the world center of mass as `pos * local_com`. -/
def RigidBody.setPosition (rb : RigidBody) (pos : Iso3) : RigidBody :=
  { rb with
    updateStatus := { rb.updateStatus with positionChanged := true }
    position := pos
    com := pos.apply rb.localCom }

/-- `RigidBody::set_local_center_of_mass`: flag the change and store the
local center of mass (the world `com` field is *not* refreshed here). -/
def RigidBody.setLocalCenterOfMass (rb : RigidBody) (localCom : Vec3) : RigidBody :=
  { rb with
    updateStatus := { rb.updateStatus with localComChanged := true }
    localCom := localCom }

/-- `RigidBody::apply_displacement` (private helper taking a
`Velocity`): build the displacement isometry
`translation * shift * rotation * shift⁻¹` about the current center of
mass and apply it through `set_position`. -/
def RigidBody.applyDisplacementVel (rb : RigidBody) (disp : SpatialVec) : RigidBody :=
  let rotation := Iso3.mk (rotationOfScaledAxis disp.angular) 0
  let translation := Iso3.translationIso disp.linear
  let shift := Iso3.translationIso rb.com
  let shiftInv := Iso3.translationIso (-rb.com)
  let dispIso := ((translation.comp shift).comp rotation).comp shiftInv
  rb.setPosition (dispIso.comp rb.position)

/-- `Body::integrate` for rigid bodies: displace by `velocity * dt`. -/
def RigidBody.integrate (rb : RigidBody) (params : IntegrationParameters) : RigidBody :=
  rb.applyDisplacementVel (rb.velocity.smul params.dt)

/-- `RigidBody::add_local_inertia_and_com`: flag the changes; when the
added mass is non-zero, mass-average the local center of mass and
refresh the world `com`; accumulate the local inertia and refresh the
world inertia and its inverse. -/
def RigidBody.addLocalInertiaAndCom (rb : RigidBody) (com : Vec3) (inertia : Inertia) :
    RigidBody :=
  let rb := { rb with
    updateStatus := { rb.updateStatus with
      localComChanged := true, localInertiaChanged := true } }
  let rb :=
    if inertia.linear = 0 then rb
    else
      let massSum := rb.inertia.linear + inertia.linear
      let localCom : Vec3 := fun i =>
        (rb.localCom i * rb.inertia.linear + com i * inertia.linear) / massSum
      { rb with localCom := localCom, com := rb.position.apply localCom }
  let localInertia := rb.localInertia.add inertia
  let newInertia := localInertia.transformed rb.position.rotation
  { rb with
    localInertia := localInertia
    inertia := newInertia
    invAugmentedMass := newInertia.inverse }

/-- Modelled from the spec: `Body::activate` (the trait's default
implementation is not among the sources) — wake the body by raising its
activation energy above the deactivation threshold; a body without a
threshold never sleeps and keeps its energy. -/
def RigidBody.activate (rb : RigidBody) : RigidBody :=
  match rb.activationThreshold with
  | some t => { rb with activationEnergy := t * 2 }
  | none => rb

/-- `RigidBody::apply_force`: return unchanged unless `Dynamic`;
otherwise optionally wake the body, then apply the mask-gated update for
the given `ForceType`. -/
def RigidBody.applyForce (rb : RigidBody) (force : SpatialVec)
    (forceType : ForceType) (autoWakeUp : Bool) : RigidBody :=
  if rb.status ≠ BodyStatus.dynamic then rb
  else
    let rb := if autoWakeUp then rb.activate else rb
    match forceType with
    | ForceType.force =>
      { rb with externalForces := rb.externalForces.cmpy force rb.jacobianMask }
    | ForceType.impulse =>
      let dvel := rb.invAugmentedMass.mulForce force
      { rb with
        updateStatus := { rb.updateStatus with velocityChanged := true }
        velocity := rb.velocity.cmpy dvel rb.jacobianMask }
    | ForceType.accelerationChange =>
      let change := rb.augmentedMass.mulForce force
      { rb with externalForces := rb.externalForces.cmpy change rb.jacobianMask }
    | ForceType.velocityChange =>
      { rb with
        updateStatus := { rb.updateStatus with velocityChanged := true }
        velocity := rb.velocity.cmpy force rb.jacobianMask }

/-- Modelled from the spec: `Force::transform_by(isometry)` — rotate
both parts into the new frame. -/
def SpatialVec.transformBy (f : SpatialVec) (iso : Iso3) : SpatialVec :=
  ⟨iso.applyVec f.linear, iso.applyVec f.angular⟩

/-- Modelled from the spec: `Force::linear_at_point(f, p)` — the linear
force `f` with the torque `p × f` it exerts about the origin of `p`. -/
def forceLinearAtPoint (f p : Vec3) : SpatialVec :=
  ⟨f, cross p f⟩

/-- `RigidBody::apply_local_force`. -/
def RigidBody.applyLocalForce (rb : RigidBody) (force : SpatialVec)
    (forceType : ForceType) (autoWakeUp : Bool) : RigidBody :=
  rb.applyForce (force.transformBy rb.position) forceType autoWakeUp

/-- `RigidBody::apply_force_at_point`. -/
def RigidBody.applyForceAtPoint (rb : RigidBody) (force point : Vec3)
    (forceType : ForceType) (autoWakeUp : Bool) : RigidBody :=
  rb.applyForce (forceLinearAtPoint force (point - rb.com)) forceType autoWakeUp

/-- `RigidBody::apply_local_force_at_point`. -/
def RigidBody.applyLocalForceAtPoint (rb : RigidBody) (force point : Vec3)
    (forceType : ForceType) (autoWakeUp : Bool) : RigidBody :=
  rb.applyForceAtPoint (rb.position.applyVec force) point forceType autoWakeUp

/-- `RigidBody::apply_force_at_local_point`. -/
def RigidBody.applyForceAtLocalPoint (rb : RigidBody) (force point : Vec3)
    (forceType : ForceType) (autoWakeUp : Bool) : RigidBody :=
  rb.applyForceAtPoint force (rb.position.apply point) forceType autoWakeUp

/-- `RigidBody::apply_local_force_at_local_point`. -/
def RigidBody.applyLocalForceAtLocalPoint (rb : RigidBody) (force point : Vec3)
    (forceType : ForceType) (autoWakeUp : Bool) : RigidBody :=
  rb.applyForceAtPoint (rb.position.applyVec force) (rb.position.apply point)
    forceType autoWakeUp

/-- A constraint force direction (`ForceDirection`): linear or angular. -/
inductive ForceDirection where
  | linear (dir : Vec3)
  | angular (dir : Vec3)

/-- Modelled from the spec (§4.2): `ForceDirection::at_point` for rigid
bodies — `Linear(f)` at `p` is the spatial force `[f; p × f]`,
`Angular(a)` the pure torque `[0; a]`. -/
def ForceDirection.atPoint : ForceDirection → Vec3 → SpatialVec
  | ForceDirection.linear f, p => ⟨f, cross p f⟩
  | ForceDirection.angular a, _ => ⟨fun _ => 0, a⟩

/-- `jacobians[off .. off+6].copy_from_slice(v.as_slice())`. -/
def writeSlice6 (jac : ℕ → ℝ) (off : ℕ) (v : SpatialVec) : ℕ → ℝ :=
  fun k => if h : off ≤ k ∧ k < off + 6 then v.vec6 ⟨k - off, by omega⟩ else jac k

/-- `RigidBody::fill_constraint_geometry`.  Kinematic bodies only
accumulate the (unmasked) force · velocity into `out_vel`.  Dynamic
bodies write the masked force as the jacobian row, `M⁻¹ ·` the masked
force as the weighted row, accumulate
`inv_mass.mass() + masked_angular · (M⁻¹ masked)_angular` into `inv_r`,
and accumulate the *unmasked* force · velocity (plus masked force ·
ext_vels when given) into `out_vel`.  Static/Disabled bodies do
nothing.  Returns (jacobians, inv_r, out_vel). -/
def rigidFillConstraintGeometry (rb : RigidBody) (point : Vec3)
    (forceDir : ForceDirection) (jId wjId : ℕ) (jacobians : ℕ → ℝ) (invR : ℝ)
    (extVels : Option SpatialVec) (outVel : Option ℝ) :
    (ℕ → ℝ) × ℝ × Option ℝ :=
  let pos : Vec3 := point - rb.com
  let force := forceDir.atPoint pos
  let maskedForce := force.maskBy rb.jacobianMask
  match rb.status with
  | BodyStatus.kinematic =>
    (jacobians, invR, outVel.map (fun ov => ov + dotSV force rb.velocity))
  | BodyStatus.dynamic =>
    let jac1 := writeSlice6 jacobians jId maskedForce
    let imf := rb.invAugmentedMass.mulForce maskedForce
    let jac2 := writeSlice6 jac1 wjId imf
    let invR2 := invR + (rb.invAugmentedMass.mass + dot3 maskedForce.angular imf.angular)
    let outVel2 := outVel.map (fun ov =>
      let ov1 := ov + dotSV force rb.velocity
      match extVels with
      | some ev => ov1 + dotSV maskedForce ev
      | none => ov1)
    (jac2, invR2, outVel2)
  | _ => (jacobians, invR, outVel)

/-- **C7 (amended).** For a Dynamic rigid body,
`fill_constraint_geometry` writes the jacobian row and the
weighted-jacobian row from the force masked by the per-DOF jacobian
mask, and accumulates into `out_vel` the *unmasked* force dotted with
the body's full velocity (plus the masked force dotted with `ext_vels`
when given); but the `inv_r` accumulation adds the scalar inverse mass
unconditionally — independent of the mask — plus the masked angular
term, so the claim that masked DOFs contribute zero holds for the
jacobian rows, not for the linear part of `inv_r`. -/
theorem rigid_fill_constraint_geometry_mask_discipline (rb : RigidBody)
    (point : Vec3) (fd : ForceDirection) (jId wjId : ℕ) (jac : ℕ → ℝ)
    (invR : ℝ) (o : ℝ)
    (hdyn : rb.status = BodyStatus.dynamic) (hsep : jId + 6 ≤ wjId) :
    (∀ i : Fin 6,
      (rigidFillConstraintGeometry rb point fd jId wjId jac invR none (some o)).1 (jId + i)
        = ((fd.atPoint (point - rb.com)).maskBy rb.jacobianMask).vec6 i)
    ∧ (∀ i : Fin 6,
      (rigidFillConstraintGeometry rb point fd jId wjId jac invR none (some o)).1 (wjId + i)
        = (rb.invAugmentedMass.mulForce
            ((fd.atPoint (point - rb.com)).maskBy rb.jacobianMask)).vec6 i)
    ∧ ((rigidFillConstraintGeometry rb point fd jId wjId jac invR none (some o)).2.1
        = invR + (rb.invAugmentedMass.mass
          + dot3 ((fd.atPoint (point - rb.com)).maskBy rb.jacobianMask).angular
              (rb.invAugmentedMass.mulForce
                ((fd.atPoint (point - rb.com)).maskBy rb.jacobianMask)).angular))
    ∧ ((rigidFillConstraintGeometry rb point fd jId wjId jac invR none (some o)).2.2
        = some (o + dotSV (fd.atPoint (point - rb.com)) rb.velocity))
    ∧ (∀ ev : SpatialVec,
      (rigidFillConstraintGeometry rb point fd jId wjId jac invR (some ev) (some o)).2.2
        = some (o + dotSV (fd.atPoint (point - rb.com)) rb.velocity
            + dotSV ((fd.atPoint (point - rb.com)).maskBy rb.jacobianMask) ev)) := by
  refine ⟨?_, ?_, ?_, ?_, ?_⟩
  · intro i
    have hi := i.isLt
    simp only [rigidFillConstraintGeometry, hdyn]
    rw [writeSlice6]
    rw [dif_neg (by omega)]
    rw [writeSlice6]
    rw [dif_pos ⟨by omega, by omega⟩]
    congr 1
    exact Fin.ext (by simp)
  · intro i
    have hi := i.isLt
    simp only [rigidFillConstraintGeometry, hdyn]
    rw [writeSlice6]
    rw [dif_pos ⟨by omega, by omega⟩]
    congr 1
    exact Fin.ext (by simp)
  · simp only [rigidFillConstraintGeometry, hdyn]
  · simp only [rigidFillConstraintGeometry, hdyn]
    rfl
  · intro ev
    simp only [rigidFillConstraintGeometry, hdyn]
    rfl

/-- The unit `x` vector. -/
def unitX : Vec3 := fun i => if i = 0 then 1 else 0

/-- A dynamic rigid body with every DOF locked by the jacobian mask
(`set_kinematic_translations`/`_rotations` on all axes), unit mass and
identity angular inverse mass. -/
def lockedRigidBody : RigidBody where
  position := identityIso
  velocity := SpatialVec.zero
  localInertia := ⟨1, 1⟩
  inertia := ⟨1, 1⟩
  localCom := 0
  com := 0
  augmentedMass := ⟨1, 1⟩
  invAugmentedMass := ⟨1, 1⟩
  externalForces := SpatialVec.zero
  acceleration := SpatialVec.zero
  status := BodyStatus.dynamic
  activationEnergy := 1
  activationThreshold := none
  jacobianMask := SpatialVec.zero
  companionId := 0
  updateStatus := ⟨false, false, false, false, false⟩

/-- Witness for C7's amended theorem: a concrete dynamic body with
`j_id = 0`, `wj_id = 6`. -/
theorem rigid_fill_constraint_geometry_mask_discipline_witness :
    lockedRigidBody.status = BodyStatus.dynamic ∧ (0 : ℕ) + 6 ≤ 6 ∧
      ((rigidFillConstraintGeometry lockedRigidBody 0
          (ForceDirection.linear unitX) 0 6 (fun _ => 0) 0 none (some 0)).2.1
        = 0 + (lockedRigidBody.invAugmentedMass.mass
          + dot3 (((ForceDirection.linear unitX).atPoint
              ((0 : Vec3) - lockedRigidBody.com)).maskBy
                lockedRigidBody.jacobianMask).angular
            (lockedRigidBody.invAugmentedMass.mulForce
              (((ForceDirection.linear unitX).atPoint
                ((0 : Vec3) - lockedRigidBody.com)).maskBy
                  lockedRigidBody.jacobianMask)).angular)) :=
  by
  have hdyn : lockedRigidBody.status = BodyStatus.dynamic := rfl
  exact ⟨hdyn, by norm_num,
    (rigid_fill_constraint_geometry_mask_discipline lockedRigidBody 0
      (ForceDirection.linear unitX) 0 6 (fun _ => 0) 0 0 hdyn (by norm_num)).2.2.1⟩

/-- **C7 counterexample.** A dynamic body with all DOFs masked: the
masked force is identically zero, yet `fill_constraint_geometry` adds
the scalar inverse mass (`1`) to `inv_r` — the claim that the `inv_r`
accumulation is computed from the masked force (masked DOFs contributing
zero) fails. -/
theorem rigid_fill_inv_r_ignores_mask :
    (∀ i : Fin 6,
      (((ForceDirection.linear unitX).atPoint
          ((0 : Vec3) - lockedRigidBody.com)).maskBy
        lockedRigidBody.jacobianMask).vec6 i = 0)
    ∧ (rigidFillConstraintGeometry lockedRigidBody 0
        (ForceDirection.linear unitX) 0 6 (fun _ => 0) 0 none none).2.1 = 1
    ∧ (1 : ℝ) ≠ 0 := by
  refine ⟨?_, ?_, one_ne_zero⟩
  · intro i
    simp [SpatialVec.maskBy, SpatialVec.vec6, lockedRigidBody, SpatialVec.zero]
  · simp only [rigidFillConstraintGeometry]
    show (0 : ℝ) + (Inertia.mass ⟨1, 1⟩ + _) = 1
    simp [Inertia.mass, Inertia.mulForce, dot3, SpatialVec.maskBy,
      lockedRigidBody, SpatialVec.zero]

/-- The invariant claimed for rigid bodies: the stored world center of
mass equals the position isometry applied to the local center of mass. -/
def comInvariant (rb : RigidBody) : Prop :=
  rb.com = rb.position.apply rb.localCom

/-- A freshly built rigid body at the identity (as `RigidBody::new`):
local COM at the origin, world COM at the position's translation. -/
def freshRigidBody : RigidBody where
  position := identityIso
  velocity := SpatialVec.zero
  localInertia := ⟨0, 0⟩
  inertia := ⟨0, 0⟩
  localCom := 0
  com := 0
  augmentedMass := ⟨0, 0⟩
  invAugmentedMass := ⟨0, 0⟩
  externalForces := SpatialVec.zero
  acceleration := SpatialVec.zero
  status := BodyStatus.dynamic
  activationEnergy := 1
  activationThreshold := some (1/100)
  jacobianMask := ⟨fun _ => 1, fun _ => 1⟩
  companionId := 0
  updateStatus := ⟨true, true, true, true, true⟩

/-- **C8 (amended).** The invariant `world com = position · local_com`
holds after `set_position`, `apply_displacement` and `integrate`
unconditionally, and is preserved by `add_local_inertia_and_com`; but
`set_local_center_of_mass` only stores the new local COM and flags the
change, leaving the world COM stale until the next `set_position`. -/
theorem rigid_world_com_invariant (rb : RigidBody) :
    (∀ pos, comInvariant (rb.setPosition pos))
    ∧ (∀ disp, comInvariant (rb.applyDisplacementVel disp))
    ∧ (∀ params, comInvariant (rb.integrate params))
    ∧ (comInvariant rb →
        ∀ (com : Vec3) (inertia : Inertia),
          comInvariant (rb.addLocalInertiaAndCom com inertia))
    ∧ (∀ localCom, (rb.setLocalCenterOfMass localCom).com = rb.com
        ∧ (rb.setLocalCenterOfMass localCom).position = rb.position) := by
  refine ⟨fun pos => rfl, fun disp => rfl, fun params => rfl, ?_, fun l => ⟨rfl, rfl⟩⟩
  intro h com inertia
  unfold RigidBody.addLocalInertiaAndCom
  split_ifs with hz
  · exact h
  · rfl

/-- Witness for C8's amended theorem: the fresh body satisfies the
invariant and keeps it across `add_local_inertia_and_com`. -/
theorem rigid_world_com_invariant_witness :
    comInvariant freshRigidBody
      ∧ comInvariant (freshRigidBody.addLocalInertiaAndCom 0 ⟨1, 1⟩) := by
  have h : comInvariant freshRigidBody := by
    show (0 : Vec3) = identityIso.apply 0
    simp [Iso3.apply, identityIso]
  exact ⟨h, (rigid_world_com_invariant freshRigidBody).2.2.2.1 h 0 ⟨1, 1⟩⟩

/-- **C8 counterexample.** `set_local_center_of_mass` moves the local
COM of a fresh identity-positioned body to `(1,0,0)` but leaves the
stored world COM at the origin, so `world com = position · local_com`
fails right after the call. -/
theorem set_local_com_breaks_invariant :
    ¬comInvariant (freshRigidBody.setLocalCenterOfMass unitX) := by
  intro h
  have h0 := congrFun h 0
  simp [comInvariant, RigidBody.setLocalCenterOfMass, freshRigidBody,
    identityIso, Iso3.apply, unitX, Matrix.one_mulVec] at h0

/-! ## FEM deformable volumes (`src/object/fem_volume.rs`)

Flat node vectors (`positions`, `velocities`, …) are functions `ℕ → ℝ`
indexed by DOF; the dense `augmented_mass` is `ℕ → ℕ → ℝ`.  Element node
indices are stored pre-multiplied by `DIM = 3`, as in the source
(`indices: idx * 3`).  Strains are 6-vectors with the Euclidean norm. -/

/-- A strain 6-vector `(xx, yy, zz, xy, xz, yz)`. -/
abbrev Strain := EuclideanSpace ℝ (Fin 6)

/-- One tetrahedral element (`TetrahedralElement<N>`). -/
structure TetElement where
  indices : Fin 4 → ℕ
  com : Vec3
  rot : Mat3
  invRot : Mat3
  j : Mat3
  localJInv : Matrix (Fin 3) (Fin 4) ℝ
  totalStrain : Strain
  plasticStrain : Strain
  volume : ℝ
  density : ℝ

/-- The FEM deformable volume state (`FEMVolume<N>`).  The Cholesky
factor `inv_augmented_mass` is kept as the solve operator it implements
(`Cholesky::solve_mut`). -/
structure FEMVolume where
  nnodes : ℕ
  elements : List TetElement
  kinematicNodes : ℕ → Bool
  positions : ℕ → ℝ
  velocities : ℕ → ℝ
  accelerations : ℕ → ℝ
  forces : ℕ → ℝ
  restPositions : ℕ → ℝ
  augmentedMass : ℕ → ℕ → ℝ
  invAugmentedMassSolve : (ℕ → ℝ) → (ℕ → ℝ)
  workspace : ℕ → ℝ
  gravityEnabled : Bool
  dampingCoeffs : ℝ × ℝ
  youngModulus : ℝ
  poissonRatio : ℝ
  plasticityThreshold : ℝ
  plasticityCreep : ℝ
  plasticityMaxForce : ℝ
  d0 : ℝ
  d1 : ℝ
  d2 : ℝ
  companionId : ℕ
  activationEnergy : ℝ
  activationThreshold : Option ℝ
  status : BodyStatus
  updateStatus : BodyUpdateStatus

/-- Total DOF count: `positions.len() = 3 · (number of nodes)`. -/
def FEMVolume.ndofs (vol : FEMVolume) : ℕ := 3 * vol.nnodes

/-- Add `v` to the three diagonal entries of the 3×3 block at
`(ia, ib)` (`node_mass[(k,k)] += mass_contribution`). -/
def blockAddDiag (M : ℕ → ℕ → ℝ) (ia ib : ℕ) (v : ℝ) : ℕ → ℕ → ℝ :=
  fun r c => M r c + ∑ i : Fin 3, if r = ia + i ∧ c = ib + i then v else 0

/-- Add a full 3×3 block `B` at `(ia, ib)`
(`mass_part.gemm(coeff, &rot_stiffness, inv_rot, 1)`). -/
def blockAdd (M : ℕ → ℕ → ℝ) (ia ib : ℕ) (B : Mat3) : ℕ → ℕ → ℝ :=
  fun r c => M r c + ∑ i : Fin 3, ∑ j : Fin 3, if r = ia + i ∧ c = ib + j then B i j else 0

/-- Set the three diagonal entries of the 3×3 block at `(ia, ia)` to one
(`fixed_slice_mut(ia, ia).fill_diagonal(1)`). -/
def fillDiagonalOne (M : ℕ → ℕ → ℝ) (ia : ℕ) : ℕ → ℕ → ℝ :=
  fun r c => if (∃ k : Fin 3, r = ia + k) ∧ c = r then 1 else M r c

/-- The contribution of one element to the consistent mass with Rayleigh
mass damping (`FEMVolume::assemble_mass_with_damping`, inner loops):
`coeff_mass` per off-diagonal node pair, doubled on the diagonal;
node pairs with a kinematic node on either side are skipped. -/
def elementMassUpdate (kin : ℕ → Bool) (coeffMass : ℝ) (elt : TetElement)
    (M : ℕ → ℕ → ℝ) : ℕ → ℕ → ℝ :=
  (List.finRange 4).foldl (fun M a =>
    let ia := elt.indices a
    if kin (ia / 3) then M
    else (List.finRange 4).foldl (fun M b =>
      let ib := elt.indices b
      if kin (ib / 3) then M
      else blockAddDiag M ia ib (if a = b then coeffMass * 2 else coeffMass)) M) M

/-- `FEMVolume::assemble_mass_with_damping`: accumulate
`density · volume / 20 · (1 + dt·α)` blocks over every element of
positive volume, then write identity blocks on the diagonal of every
kinematic node. -/
def assembleMassWithDamping (vol : FEMVolume) (dt : ℝ) (M : ℕ → ℕ → ℝ) :
    ℕ → ℕ → ℝ :=
  let massDamping := dt * vol.dampingCoeffs.1
  let M1 := vol.elements.foldl (fun M elt =>
    if 0 < elt.volume then
      elementMassUpdate vol.kinematicNodes
        (elt.density * elt.volume / 20 * (1 + massDamping)) elt M
    else M) M
  (List.range vol.nnodes).foldl (fun M i =>
    if vol.kinematicNodes i then fillDiagonalOne M (3 * i) else M) M1

/-- The 3×3 material stiffness block `K_{ab}` built from the
`(d0, d1, d2)` elasticity coefficients (pre-multiplied by the element
volume) and the `b,c,d` rows of `local_j_inv`
(`node_stiffness` in `assemble_stiffness`). -/
def nodeStiffness (d0v d1v d2v : ℝ) (lji : Matrix (Fin 3) (Fin 4) ℝ)
    (a b : Fin 4) : Mat3 :=
  let bn := lji 0 a
  let cn := lji 1 a
  let dn := lji 2 a
  let bm := lji 0 b
  let cm := lji 1 b
  let dm := lji 2 b
  let bn0 := bn * d0v
  let bn1 := bn * d1v
  let bn2 := bn * d2v
  let cn0 := cn * d0v
  let cn1 := cn * d1v
  let cn2 := cn * d2v
  let dn0 := dn * d0v
  let dn1 := dn * d1v
  let dn2 := dn * d2v
  Matrix.of fun i j =>
    match i, j with
    | 0, 0 => bn0 * bm + cn2 * cm + dn2 * dm
    | 0, 1 => bn1 * cm + cn2 * bm
    | 0, 2 => bn1 * dm + dn2 * bm
    | 1, 0 => cn1 * bm + bn2 * cm
    | 1, 1 => cn0 * cm + bn2 * bm + dn2 * dm
    | 1, 2 => cn1 * dm + dn2 * cm
    | 2, 0 => dn1 * bm + bn2 * dm
    | 2, 1 => dn1 * cm + cn2 * dm
    | 2, 2 => dn0 * dm + bn2 * bm + cn2 * cm

/-- The contribution of one element to the stiffness part of the
augmented mass (`FEMVolume::assemble_stiffness`, inner loops): for each
non-kinematic ordered node pair, add
`stiffness_coeff · R · K_{ab} · R⁻¹`. -/
def elementStiffnessUpdate (kin : ℕ → Bool) (stiffnessCoeff d0 d1 d2 : ℝ)
    (elt : TetElement) (M : ℕ → ℕ → ℝ) : ℕ → ℕ → ℝ :=
  let d0v := d0 * elt.volume
  let d1v := d1 * elt.volume
  let d2v := d2 * elt.volume
  (List.finRange 4).foldl (fun M a =>
    let ia := elt.indices a
    if kin (ia / 3) then M
    else (List.finRange 4).foldl (fun M b =>
      let ib := elt.indices b
      if kin (ib / 3) then M
      else blockAdd M ia ib
        (stiffnessCoeff • (elt.rot * nodeStiffness d0v d1v d2v elt.localJInv a b
          * elt.invRot))) M) M

/-- `FEMVolume::assemble_stiffness` with
`stiffness_coeff = dt·(dt + β)`. -/
def assembleStiffness (vol : FEMVolume) (dt : ℝ) (M : ℕ → ℕ → ℝ) : ℕ → ℕ → ℝ :=
  let stiffnessCoeff := dt * (dt + vol.dampingCoeffs.2)
  vol.elements.foldl (fun M elt =>
    if 0 < elt.volume then
      elementStiffnessUpdate vol.kinematicNodes stiffnessCoeff
        vol.d0 vol.d1 vol.d2 elt M
    else M) M

/-- The augmented mass assembled by `FEMVolume::update_dynamics`: zero
the matrix, assemble mass + damping (ending in the kinematic identity
fill), then assemble stiffness. -/
def assembledAugmentedMass (vol : FEMVolume) (dt : ℝ) : ℕ → ℕ → ℝ :=
  assembleStiffness vol dt (assembleMassWithDamping vol dt (fun _ _ => 0))

/-- The 3-vector stored at rows `ia .. ia+3` of a flat vector. -/
def vec3At (v : ℕ → ℝ) (ia : ℕ) : Vec3 := fun i => v (ia + i)

/-- `v.fixed_rows_mut(ia) += w`. -/
def addVec3At (v : ℕ → ℝ) (ia : ℕ) (w : Vec3) : ℕ → ℝ :=
  fun r => v r + ∑ i : Fin 3, if r = ia + i then w i else 0

/-- `v.fixed_rows_mut(ia).copy_from(&w)`. -/
def setVec3At (v : ℕ → ℝ) (ia : ℕ) (w : Vec3) : ℕ → ℝ :=
  fun r => if h : ia ≤ r ∧ r < ia + 3 then w ⟨r - ia, by omega⟩ else v r

/-- The gravity contribution of one element
(`FEMVolume::assemble_forces`, first loop): `ρ·V/4 · gravity` on every
non-kinematic node. -/
def gravityForcesUpdate (kin : ℕ → Bool) (gravity : Vec3) (elt : TetElement)
    (acc : ℕ → ℝ) : ℕ → ℝ :=
  let contribution : Vec3 := fun i =>
    gravity i * (elt.density * elt.volume * (1 / 4))
  (List.finRange 4).foldl (fun acc k =>
    let ie := elt.indices k
    if kin (ie / 3) then acc else addVec3At acc ie contribution) acc

/-- The gravity pass of `FEMVolume::assemble_forces` (skipped when
gravity is disabled, and for non-positive-volume elements). -/
def assembleGravity (vol : FEMVolume) (gravity : Vec3) (acc : ℕ → ℝ) : ℕ → ℝ :=
  if vol.gravityEnabled then
    vol.elements.foldl (fun acc elt =>
      if 0 < elt.volume then
        gravityForcesUpdate vol.kinematicNodes gravity elt acc
      else acc) acc
  else acc

/-- `B_n · dpos`: the strain contribution of node `n` with barycentric
gradient `(bn, cn, dn)` (`total_strain += Vector6::new(..)`). -/
def strainContribution (bn cn dn : ℝ) (dpos : Vec3) : Strain :=
  fun idx =>
    match idx with
    | 0 => bn * dpos 0
    | 1 => cn * dpos 1
    | 2 => dn * dpos 2
    | 3 => cn * dpos 0 + bn * dpos 1
    | 4 => dn * dpos 0 + bn * dpos 2
    | 5 => dn * dpos 1 + cn * dpos 2

/-- The total strain of one element
(`FEMVolume::assemble_forces`, per-node loop):
`Σₐ Bₐ · (R⁻¹·(posₐ + dt·velₐ) − rest_posₐ)`. -/
def elementTotalStrain (vol : FEMVolume) (dt : ℝ) (elt : TetElement) : Strain :=
  ∑ a : Fin 4,
    let bn := elt.localJInv 0 a
    let cn := elt.localJInv 1 a
    let dn := elt.localJInv 2 a
    let ia := elt.indices a
    let dpos : Vec3 :=
      elt.invRot.mulVec (fun i => vol.velocities (ia + i) * dt + vol.positions (ia + i))
        - vec3At vol.restPositions ia
    strainContribution bn cn dn dpos

/-- The plastic-strain update of `FEMVolume::assemble_forces`: when
`‖total − plastic‖ > threshold`, move the plastic strain toward the
total by `dt · min(1/dt, creep)`; then (`Unit::try_new_and_get`) if the
plastic strain is non-zero and longer than `max_force`, rescale it to
length `max_force`. -/
def updatePlasticStrain (dt threshold creep maxForce : ℝ)
    (total plastic : Strain) : Strain :=
  let strain := total - plastic
  let p1 :=
    if threshold < ‖strain‖ then
      plastic + (dt * min (1 / dt) creep) • strain
    else plastic
  if 0 < ‖p1‖ ∧ maxForce < ‖p1‖ then (maxForce / ‖p1‖) • p1 else p1

/-- `P_n · strain` (`projected_strain` in `assemble_forces`). -/
def projectedStrain (d0v d1v d2v bn cn dn : ℝ) (strain : Strain) : Vec3 :=
  let bn0 := bn * d0v
  let bn1 := bn * d1v
  let bn2 := bn * d2v
  let cn0 := cn * d0v
  let cn1 := cn * d1v
  let cn2 := cn * d2v
  let dn0 := dn * d0v
  let dn1 := dn * d1v
  let dn2 := dn * d2v
  fun i =>
    match i with
    | 0 => bn0 * strain 0 + bn1 * strain 1 + bn1 * strain 2
        + cn2 * strain 3 + dn2 * strain 4
    | 1 => cn1 * strain 0 + cn0 * strain 1 + cn1 * strain 2
        + bn2 * strain 3 + dn2 * strain 5
    | 2 => dn1 * strain 0 + dn1 * strain 1 + dn0 * strain 2
        + bn2 * strain 4 + cn2 * strain 5

/-- The elastic pass of `FEMVolume::assemble_forces` for one element:
recompute the total strain, update and cap the plastic strain, and
subtract `R · Pₙ·(total − plastic)` from the accelerations of every
non-kinematic node.  Returns the updated element and accelerations. -/
def elementForcesUpdate (vol : FEMVolume) (params : IntegrationParameters)
    (elt : TetElement) (acc : ℕ → ℝ) : TetElement × (ℕ → ℝ) :=
  let totalStrain := elementTotalStrain vol params.dt elt
  let plasticStrain := updatePlasticStrain params.dt vol.plasticityThreshold
    vol.plasticityCreep vol.plasticityMaxForce totalStrain elt.plasticStrain
  let elt2 := { elt with totalStrain := totalStrain, plasticStrain := plasticStrain }
  let strain := totalStrain - plasticStrain
  let acc2 := (List.finRange 4).foldl (fun acc a =>
    let ia := elt.indices a
    if vol.kinematicNodes (ia / 3) then acc
    else
      let bn := elt.localJInv 0 a
      let cn := elt.localJInv 1 a
      let dn := elt.localJInv 2 a
      let ps := projectedStrain (vol.d0 * elt.volume) (vol.d1 * elt.volume)
        (vol.d2 * elt.volume) bn cn dn strain
      addVec3At acc ia (fun i => -(elt.rot.mulVec ps i))) acc
  (elt2, acc2)

/-- The elastic loop of `FEMVolume::assemble_forces` over the element
list (elements of non-positive volume are skipped and left unchanged). -/
def assembleElementForces (vol : FEMVolume) (params : IntegrationParameters) :
    List TetElement → (ℕ → ℝ) → List TetElement × (ℕ → ℝ)
  | [], acc => ([], acc)
  | elt :: rest, acc =>
    if 0 < elt.volume then
      let r := elementForcesUpdate vol params elt acc
      let rr := assembleElementForces vol params rest r.2
      (r.1 :: rr.1, rr.2)
    else
      let rr := assembleElementForces vol params rest acc
      (elt :: rr.1, rr.2)

/-- `FEMVolume::assemble_forces`: gravity pass, then the elastic pass
(which also updates each element's strains).  The pass starts from the
volume's current accelerations. -/
def assembleForces (vol : FEMVolume) (gravity : Vec3)
    (params : IntegrationParameters) : List TetElement × (ℕ → ℝ) :=
  assembleElementForces vol params vol.elements
    (assembleGravity vol gravity vol.accelerations)

/-- `FEMVolume::update_acceleration`: zero the accelerations, assemble
forces, then solve in place with the Cholesky factor of the augmented
mass. -/
def FEMVolume.updateAcceleration (vol : FEMVolume) (gravity : Vec3)
    (params : IntegrationParameters) : FEMVolume :=
  let vol0 := { vol with accelerations := fun _ => 0 }
  let r := assembleForces vol0 gravity params
  { vol0 with
    elements := r.1
    accelerations := vol.invAugmentedMassSolve r.2 }

/-- Modelled from the spec: `Body::activate` for the FEM volume (the
trait's default implementation is not among the sources) — wake the body
by raising its activation energy above the deactivation threshold. -/
def FEMVolume.activate (vol : FEMVolume) : FEMVolume :=
  match vol.activationThreshold with
  | some t => { vol with activationEnergy := t * 2 }
  | none => vol

/-- Modelled from the spec: ncollide's
`Tetrahedron::barycentric_coordinates` (not among the sources) — the
barycentric coordinates of `p` in the tetrahedron `(a,b,c,d)` by solving
the edge-matrix system; `none` for a degenerate tetrahedron. -/
def tetraBarycentric (a b c d p : Vec3) : Option (Fin 4 → ℝ) :=
  let m : Mat3 := Matrix.of fun i j =>
    match j with
    | 0 => b i - a i
    | 1 => c i - a i
    | 2 => d i - a i
  if m.det = 0 then none
  else
    let y := m⁻¹.mulVec (p - a)
    some fun k =>
      match k with
      | 0 => 1 - y 0 - y 1 - y 2
      | 1 => y 0
      | 2 => y 1
      | 3 => y 2

/-- `fem_helper::material_point_at_world_point` for a tetrahedral
element: the barycentric coordinates of the point (defaulting to zero
when the query fails, `unwrap_or([0; 4])`), dropping the first. -/
def materialPointAtWorldPoint (positions : ℕ → ℝ) (indices : Fin 4 → ℕ)
    (point : Vec3) : Vec3 :=
  match tetraBarycentric (vec3At positions (indices 0)) (vec3At positions (indices 1))
      (vec3At positions (indices 2)) (vec3At positions (indices 3)) point with
  | none => fun _ => 0
  | some bc => fun i =>
    match i with
    | 0 => bc 1
    | 1 => bc 2
    | 2 => bc 3

/-- `FEMVolume::apply_force_at_local_point`: return unchanged unless
`Dynamic`; otherwise optionally wake the body, split the force over the
element's nodes by the barycentric coordinates of the local point, and
apply the per-`ForceType` update, skipping kinematic nodes.  A part id
with no element leaves the body unchanged (the source would panic). -/
def FEMVolume.applyForceAtLocalPoint (vol : FEMVolume) (partId : ℕ)
    (force : Vec3) (point : Vec3) (forceType : ForceType) (autoWakeUp : Bool) :
    FEMVolume :=
  if vol.status ≠ BodyStatus.dynamic then vol
  else
    let vol := if autoWakeUp then vol.activate else vol
    match vol.elements.get? partId with
    | none => vol
    | some element =>
      let forces : Fin 4 → Vec3 := fun k =>
        match k with
        | 0 => fun i => force i * (1 - point 0 - point 1 - point 2)
        | 1 => fun i => force i * point 0
        | 2 => fun i => force i * point 1
        | 3 => fun i => force i * point 2
      match forceType with
      | ForceType.force =>
        { vol with forces := (List.finRange 4).foldl (fun f i =>
            if vol.kinematicNodes (element.indices i / 3) then f
            else addVec3At f (element.indices i) (forces i)) vol.forces }
      | ForceType.impulse =>
        let dvel := (List.finRange 4).foldl (fun dv i =>
          if vol.kinematicNodes (element.indices i / 3) then dv
          else setVec3At dv (element.indices i) (forces i)) (fun _ => 0)
        let solved := vol.invAugmentedMassSolve dvel
        { vol with
          workspace := solved
          velocities := fun r => vol.velocities r + solved r }
      | ForceType.accelerationChange =>
        let acceleration := (List.finRange 4).foldl (fun av i =>
          if vol.kinematicNodes (element.indices i / 3) then av
          else setVec3At av (element.indices i) (forces i)) (fun _ => 0)
        { vol with
          workspace := acceleration
          forces := fun r => vol.forces r
            + ∑ c ∈ Finset.range vol.ndofs, vol.augmentedMass r c * acceleration c }
      | ForceType.velocityChange =>
        { vol with velocities := (List.finRange 4).foldl (fun v i =>
            if vol.kinematicNodes (element.indices i / 3) then v
            else addVec3At v (element.indices i) (forces i)) vol.velocities }

/-- `FEMVolume::apply_force`: the linear part of the force at the
element barycenter `(1/4, 1/4, 1/4)`. -/
def FEMVolume.applyForce (vol : FEMVolume) (partId : ℕ) (force : SpatialVec)
    (forceType : ForceType) (autoWakeUp : Bool) : FEMVolume :=
  vol.applyForceAtLocalPoint partId force.linear (fun _ => 1 / 4) forceType autoWakeUp

/-- The rotation of element `partId` (out-of-range ids rotate by the
identity; the source would panic). -/
def FEMVolume.elementRot (vol : FEMVolume) (partId : ℕ) : Mat3 :=
  match vol.elements.get? partId with
  | some elt => elt.rot
  | none => 1

/-- `FEMVolume::apply_local_force`: rotate both parts of the force by
the element rotation, then `apply_force`. -/
def FEMVolume.applyLocalForce (vol : FEMVolume) (partId : ℕ) (force : SpatialVec)
    (forceType : ForceType) (autoWakeUp : Bool) : FEMVolume :=
  vol.applyForce partId
    ⟨(vol.elementRot partId).mulVec force.linear,
      (vol.elementRot partId).mulVec force.angular⟩ forceType autoWakeUp

/-- The element node indices (out-of-range ids give all-zero indices;
the source would panic). -/
def FEMVolume.elementIndices (vol : FEMVolume) (partId : ℕ) : Fin 4 → ℕ :=
  match vol.elements.get? partId with
  | some elt => elt.indices
  | none => fun _ => 0

/-- `FEMVolume::apply_force_at_point`: invert the point through the
element's barycentric coordinates, then apply at the local point. -/
def FEMVolume.applyForceAtPoint (vol : FEMVolume) (partId : ℕ)
    (force point : Vec3) (forceType : ForceType) (autoWakeUp : Bool) : FEMVolume :=
  let localPoint := materialPointAtWorldPoint vol.positions
    (vol.elementIndices partId) point
  vol.applyForceAtLocalPoint partId force localPoint forceType autoWakeUp

/-- `FEMVolume::apply_local_force_at_point`. -/
def FEMVolume.applyLocalForceAtPoint (vol : FEMVolume) (partId : ℕ)
    (force point : Vec3) (forceType : ForceType) (autoWakeUp : Bool) : FEMVolume :=
  let worldForce := (vol.elementRot partId).mulVec force
  let localPoint := materialPointAtWorldPoint vol.positions
    (vol.elementIndices partId) point
  vol.applyForceAtLocalPoint partId worldForce localPoint forceType autoWakeUp

/-- `FEMVolume::apply_local_force_at_local_point`. -/
def FEMVolume.applyLocalForceAtLocalPoint (vol : FEMVolume) (partId : ℕ)
    (force point : Vec3) (forceType : ForceType) (autoWakeUp : Bool) : FEMVolume :=
  let worldForce := (vol.elementRot partId).mulVec force
  vol.applyForceAtLocalPoint partId worldForce point forceType autoWakeUp

/-! ### Lemmas: plasticity (C5) -/

lemma capStep_norm_le (maxF : ℝ) (h : 0 ≤ maxF) (p1 : Strain) :
    ‖if 0 < ‖p1‖ ∧ maxF < ‖p1‖ then (maxF / ‖p1‖) • p1 else p1‖ ≤ maxF := by
  split_ifs with hcap
  · obtain ⟨hpos, _⟩ := hcap
    rw [norm_smul, Real.norm_eq_abs, abs_of_nonneg (div_nonneg h (le_of_lt hpos))]
    exact le_of_eq (div_mul_cancel₀ maxF (ne_of_gt hpos))
  · rcases lt_or_le maxF ‖p1‖ with hgt | hle
    · by_cases hz : 0 < ‖p1‖
      · exact absurd ⟨hz, hgt⟩ hcap
      · have h0 : ‖p1‖ = 0 := le_antisymm (not_lt.mp hz) (norm_nonneg _)
        rw [h0]
        exact h
    · exact hle

/-- The norm cap of `updatePlasticStrain` is unconditional: whatever the
previous plastic strain, the updated one has norm at most `maxForce`
(for a non-negative `maxForce`). -/
lemma updatePlasticStrain_norm_le (dt th creep maxF : ℝ) (h : 0 ≤ maxF)
    (total plastic : Strain) :
    ‖updatePlasticStrain dt th creep maxF total plastic‖ ≤ maxF := by
  unfold updatePlasticStrain
  exact capStep_norm_le maxF h _

lemma elementForcesUpdate_plastic (vol : FEMVolume) (params : IntegrationParameters)
    (elt : TetElement) (acc : ℕ → ℝ) :
    (elementForcesUpdate vol params elt acc).1.plasticStrain
      = updatePlasticStrain params.dt vol.plasticityThreshold vol.plasticityCreep
          vol.plasticityMaxForce (elementTotalStrain vol params.dt elt)
          elt.plasticStrain := rfl

lemma mem_assembleElementForces (vol : FEMVolume) (params : IntegrationParameters) :
    ∀ (l : List TetElement) (acc : ℕ → ℝ),
      ∀ e' ∈ (assembleElementForces vol params l acc).1,
        (∃ e acc0, e' = (elementForcesUpdate vol params e acc0).1)
          ∨ (e' ∈ l ∧ ¬0 < e'.volume) := by
  intro l
  induction l with
  | nil => intro acc e' h; simp [assembleElementForces] at h
  | cons e t ih =>
    intro acc e' h
    simp only [assembleElementForces] at h
    split_ifs at h with hv
    · simp only [List.mem_cons] at h
      rcases h with h | h
      · exact Or.inl ⟨e, acc, h⟩
      · rcases ih _ e' h with hl | ⟨hm, hv'⟩
        · exact Or.inl hl
        · exact Or.inr ⟨List.mem_cons_of_mem e hm, hv'⟩
    · simp only [List.mem_cons] at h
      rcases h with h | h
      · subst h
        exact Or.inr ⟨List.mem_cons_self e' t, hv⟩
      · rcases ih _ e' h with hl | ⟨hm, hv'⟩
        · exact Or.inl hl
        · exact Or.inr ⟨List.mem_cons_of_mem e hm, hv'⟩

/-- **C5.** In every force-assembly pass, per element of positive
volume: the plastic strain moves toward the total strain by the factor
`dt · min(1/dt, creep)` only when `‖total − plastic‖` exceeds the
plasticity threshold (otherwise only the norm cap may rescale it), and
after the pass every element satisfies
`‖plastic_strain‖ ≤ plasticity_max_force` (elements of non-positive
volume are skipped by the pass, so for them the bound is carried over
from the previous state; `plasticity_max_force ≥ 0`). -/
theorem fem_plasticity_cap (vol : FEMVolume) (gravity : Vec3)
    (params : IntegrationParameters)
    (hmax : 0 ≤ vol.plasticityMaxForce)
    (hold : ∀ e ∈ vol.elements, ¬0 < e.volume →
      ‖e.plasticStrain‖ ≤ vol.plasticityMaxForce) :
    (∀ total plastic : Strain,
      ¬vol.plasticityThreshold < ‖total - plastic‖ →
        updatePlasticStrain params.dt vol.plasticityThreshold vol.plasticityCreep
            vol.plasticityMaxForce total plastic = plastic
        ∨ updatePlasticStrain params.dt vol.plasticityThreshold vol.plasticityCreep
            vol.plasticityMaxForce total plastic
          = (vol.plasticityMaxForce / ‖plastic‖) • plastic)
    ∧ (∀ total plastic : Strain,
      vol.plasticityThreshold < ‖total - plastic‖ →
        updatePlasticStrain params.dt vol.plasticityThreshold vol.plasticityCreep
            vol.plasticityMaxForce total plastic
          = plastic + (params.dt * min (1 / params.dt) vol.plasticityCreep)
              • (total - plastic)
        ∨ updatePlasticStrain params.dt vol.plasticityThreshold vol.plasticityCreep
            vol.plasticityMaxForce total plastic
          = (vol.plasticityMaxForce
              / ‖plastic + (params.dt * min (1 / params.dt) vol.plasticityCreep)
                  • (total - plastic)‖)
            • (plastic + (params.dt * min (1 / params.dt) vol.plasticityCreep)
                • (total - plastic)))
    ∧ (∀ e' ∈ (assembleForces vol gravity params).1,
        ‖e'.plasticStrain‖ ≤ vol.plasticityMaxForce) := by
  refine ⟨?_, ?_, ?_⟩
  · intro total plastic hth
    simp only [updatePlasticStrain, if_neg hth]
    split_ifs with hcap
    · exact Or.inr rfl
    · exact Or.inl rfl
  · intro total plastic hth
    simp only [updatePlasticStrain, if_pos hth]
    split_ifs with hcap
    · exact Or.inr rfl
    · exact Or.inl rfl
  · intro e' h
    rcases mem_assembleElementForces vol params vol.elements _ e' h with
      ⟨e, acc0, rfl⟩ | ⟨hm, hv⟩
    · rw [elementForcesUpdate_plastic]
      exact updatePlasticStrain_norm_le _ _ _ _ hmax _ _
    · exact hold e' hm hv

/-- A concrete tetrahedral element used by witnesses. -/
def witnessTetElement : TetElement where
  indices := fun _ => 0
  com := 0
  rot := 1
  invRot := 1
  j := 1
  localJInv := 0
  totalStrain := 0
  plasticStrain := 0
  volume := 1
  density := 1

/-- A concrete one-element FEM volume used by witnesses. -/
def witnessFEMVolume : FEMVolume where
  nnodes := 1
  elements := [witnessTetElement]
  kinematicNodes := fun _ => false
  positions := fun _ => 0
  velocities := fun _ => 0
  accelerations := fun _ => 0
  forces := fun _ => 0
  restPositions := fun _ => 0
  augmentedMass := fun _ _ => 0
  invAugmentedMassSolve := fun f => f
  workspace := fun _ => 0
  gravityEnabled := true
  dampingCoeffs := (0, 0)
  youngModulus := 1
  poissonRatio := 0
  plasticityThreshold := 0
  plasticityCreep := 0
  plasticityMaxForce := 0
  d0 := 1
  d1 := 0
  d2 := 0
  companionId := 0
  activationEnergy := 1
  activationThreshold := none
  status := BodyStatus.dynamic
  updateStatus := ⟨false, false, false, false, false⟩

/-- Concrete integration parameters used by witnesses. -/
def witnessParams : IntegrationParameters := ⟨1, 1, 0, 0, 10, 10, 1, 8, 3⟩

/-- Witness for C5: one concrete force-assembly pass. -/
theorem fem_plasticity_cap_witness :
    (0 : ℝ) ≤ witnessFEMVolume.plasticityMaxForce ∧
      (∀ e' ∈ (assembleForces witnessFEMVolume 0 witnessParams).1,
        ‖e'.plasticStrain‖ ≤ witnessFEMVolume.plasticityMaxForce) := by
  have hmax : (0 : ℝ) ≤ witnessFEMVolume.plasticityMaxForce := le_refl 0
  have hold : ∀ e ∈ witnessFEMVolume.elements, ¬0 < e.volume →
      ‖e.plasticStrain‖ ≤ witnessFEMVolume.plasticityMaxForce := by
    intro e he hv
    simp only [witnessFEMVolume, List.mem_singleton] at he
    subst he
    exact absurd (by norm_num [witnessTetElement]) hv
  exact ⟨hmax, (fem_plasticity_cap witnessFEMVolume 0 witnessParams hmax hold).2.2⟩

/-! ### Lemmas: kinematic-node isolation (C6) -/

lemma foldl_matrix_apply_eq {α : Type} (r c : ℕ) :
    ∀ (l : List α) (f : (ℕ → ℕ → ℝ) → α → (ℕ → ℕ → ℝ)) (M : ℕ → ℕ → ℝ),
      (∀ (M : ℕ → ℕ → ℝ) (a : α), a ∈ l → f M a r c = M r c) →
      (l.foldl f M) r c = M r c := by
  intro l f
  induction l with
  | nil => intro M _; rfl
  | cons a t ih =>
    intro M h
    rw [List.foldl_cons,
      ih _ (fun M b hb => h M b (List.mem_cons_of_mem a hb)),
      h M a (List.mem_cons_self a t)]

lemma foldl_vec_apply_eq {α : Type} (r : ℕ) :
    ∀ (l : List α) (f : (ℕ → ℝ) → α → (ℕ → ℝ)) (v : ℕ → ℝ),
      (∀ (v : ℕ → ℝ) (a : α), a ∈ l → f v a r = v r) →
      (l.foldl f v) r = v r := by
  intro l f
  induction l with
  | nil => intro v _; rfl
  | cons a t ih =>
    intro v h
    rw [List.foldl_cons,
      ih _ (fun v b hb => h v b (List.mem_cons_of_mem a hb)),
      h v a (List.mem_cons_self a t)]

lemma blockAddDiag_ne_row (M : ℕ → ℕ → ℝ) (ia ib : ℕ) (v : ℝ) (r c : ℕ)
    (h : ∀ i : Fin 3, r ≠ ia + i) : blockAddDiag M ia ib v r c = M r c := by
  unfold blockAddDiag
  rw [Finset.sum_eq_zero, add_zero]
  intro i _
  rw [if_neg]
  rintro ⟨h1, -⟩
  exact h i h1

lemma blockAddDiag_ne_col (M : ℕ → ℕ → ℝ) (ia ib : ℕ) (v : ℝ) (r c : ℕ)
    (h : ∀ i : Fin 3, c ≠ ib + i) : blockAddDiag M ia ib v r c = M r c := by
  unfold blockAddDiag
  rw [Finset.sum_eq_zero, add_zero]
  intro i _
  rw [if_neg]
  rintro ⟨-, h2⟩
  exact h i h2

lemma blockAdd_ne_row (M : ℕ → ℕ → ℝ) (ia ib : ℕ) (B : Mat3) (r c : ℕ)
    (h : ∀ i : Fin 3, r ≠ ia + i) : blockAdd M ia ib B r c = M r c := by
  unfold blockAdd
  rw [Finset.sum_eq_zero, add_zero]
  intro i _
  rw [Finset.sum_eq_zero]
  intro j _
  rw [if_neg]
  rintro ⟨h1, -⟩
  exact h i h1

lemma blockAdd_ne_col (M : ℕ → ℕ → ℝ) (ia ib : ℕ) (B : Mat3) (r c : ℕ)
    (h : ∀ j : Fin 3, c ≠ ib + j) : blockAdd M ia ib B r c = M r c := by
  unfold blockAdd
  rw [Finset.sum_eq_zero, add_zero]
  intro i _
  rw [Finset.sum_eq_zero]
  intro j _
  rw [if_neg]
  rintro ⟨-, h2⟩
  exact h j h2

lemma addVec3At_ne (v : ℕ → ℝ) (ia : ℕ) (w : Vec3) (r : ℕ)
    (h : ∀ i : Fin 3, r ≠ ia + i) : addVec3At v ia w r = v r := by
  unfold addVec3At
  rw [Finset.sum_eq_zero, add_zero]
  intro i _
  exact if_neg (h i)

/-- For a node index `ia` that is a multiple of 3 and `i < 3`, the DOF
row `ia + i` belongs to node `ia / 3`. -/
lemma row_node_eq (ia r : ℕ) (i : Fin 3) (hmod : ia % 3 = 0) (hr : r = ia + i) :
    r / 3 = ia / 3 := by
  have hi := i.isLt
  omega

lemma elementMassUpdate_kin_row (kin : ℕ → Bool) (cm : ℝ) (elt : TetElement)
    (M : ℕ → ℕ → ℝ) (r c : ℕ)
    (hidx : ∀ a : Fin 4, elt.indices a % 3 = 0) (hr : kin (r / 3) = true) :
    elementMassUpdate kin cm elt M r c = M r c := by
  unfold elementMassUpdate
  apply foldl_matrix_apply_eq
  intro M a _
  by_cases ha : kin (elt.indices a / 3) = true
  · rw [if_pos ha]
  · rw [if_neg ha]
    apply foldl_matrix_apply_eq
    intro M b _
    by_cases hb : kin (elt.indices b / 3) = true
    · rw [if_pos hb]
    · rw [if_neg hb]
      apply blockAddDiag_ne_row
      intro i hri
      apply ha
      rw [← row_node_eq (elt.indices a) r i (hidx a) hri]
      exact hr

lemma elementMassUpdate_kin_col (kin : ℕ → Bool) (cm : ℝ) (elt : TetElement)
    (M : ℕ → ℕ → ℝ) (r c : ℕ)
    (hidx : ∀ a : Fin 4, elt.indices a % 3 = 0) (hc : kin (c / 3) = true) :
    elementMassUpdate kin cm elt M r c = M r c := by
  unfold elementMassUpdate
  apply foldl_matrix_apply_eq
  intro M a _
  by_cases ha : kin (elt.indices a / 3) = true
  · rw [if_pos ha]
  · rw [if_neg ha]
    apply foldl_matrix_apply_eq
    intro M b _
    by_cases hb : kin (elt.indices b / 3) = true
    · rw [if_pos hb]
    · rw [if_neg hb]
      apply blockAddDiag_ne_col
      intro i hci
      apply hb
      rw [← row_node_eq (elt.indices b) c i (hidx b) hci]
      exact hc

lemma elementStiffnessUpdate_kin_row (kin : ℕ → Bool) (sc d0 d1 d2 : ℝ)
    (elt : TetElement) (M : ℕ → ℕ → ℝ) (r c : ℕ)
    (hidx : ∀ a : Fin 4, elt.indices a % 3 = 0) (hr : kin (r / 3) = true) :
    elementStiffnessUpdate kin sc d0 d1 d2 elt M r c = M r c := by
  unfold elementStiffnessUpdate
  apply foldl_matrix_apply_eq
  intro M a _
  by_cases ha : kin (elt.indices a / 3) = true
  · rw [if_pos ha]
  · rw [if_neg ha]
    apply foldl_matrix_apply_eq
    intro M b _
    by_cases hb : kin (elt.indices b / 3) = true
    · rw [if_pos hb]
    · rw [if_neg hb]
      apply blockAdd_ne_row
      intro i hri
      apply ha
      rw [← row_node_eq (elt.indices a) r i (hidx a) hri]
      exact hr

lemma elementStiffnessUpdate_kin_col (kin : ℕ → Bool) (sc d0 d1 d2 : ℝ)
    (elt : TetElement) (M : ℕ → ℕ → ℝ) (r c : ℕ)
    (hidx : ∀ a : Fin 4, elt.indices a % 3 = 0) (hc : kin (c / 3) = true) :
    elementStiffnessUpdate kin sc d0 d1 d2 elt M r c = M r c := by
  unfold elementStiffnessUpdate
  apply foldl_matrix_apply_eq
  intro M a _
  by_cases ha : kin (elt.indices a / 3) = true
  · rw [if_pos ha]
  · rw [if_neg ha]
    apply foldl_matrix_apply_eq
    intro M b _
    by_cases hb : kin (elt.indices b / 3) = true
    · rw [if_pos hb]
    · rw [if_neg hb]
      apply blockAdd_ne_col
      intro j hcj
      apply hb
      rw [← row_node_eq (elt.indices b) c j (hidx b) hcj]
      exact hc

lemma fillDiagonalOne_ne (M : ℕ → ℕ → ℝ) (ia r c : ℕ) (h : c ≠ r) :
    fillDiagonalOne M ia r c = M r c := by
  unfold fillDiagonalOne
  rw [if_neg]
  rintro ⟨-, h2⟩
  exact h h2

lemma fillFold_offdiag (kin : ℕ → Bool) (r c : ℕ) (h : c ≠ r)
    (l : List ℕ) (M : ℕ → ℕ → ℝ) :
    (l.foldl (fun M i => if kin i then fillDiagonalOne M (3 * i) else M) M) r c
      = M r c := by
  apply foldl_matrix_apply_eq
  intro M a _
  split_ifs with ha
  · exact fillDiagonalOne_ne M (3 * a) r c h
  · rfl

lemma fillFold_keeps_one (kin : ℕ → Bool) (r : ℕ) :
    ∀ (l : List ℕ) (M : ℕ → ℕ → ℝ), M r r = 1 →
      (l.foldl (fun M i => if kin i then fillDiagonalOne M (3 * i) else M) M) r r
        = 1 := by
  intro l
  induction l with
  | nil => intro M h; exact h
  | cons a t ih =>
    intro M h
    rw [List.foldl_cons]
    apply ih
    split_ifs with ha
    · unfold fillDiagonalOne
      split_ifs with hd
      · rfl
      · exact h
    · exact h

lemma fillFold_sets_one (kin : ℕ → Bool) (r i : ℕ) (hk : kin i = true)
    (hex : ∃ k : Fin 3, r = 3 * i + k) :
    ∀ (l : List ℕ) (M : ℕ → ℕ → ℝ), i ∈ l →
      (l.foldl (fun M j => if kin j then fillDiagonalOne M (3 * j) else M) M) r r
        = 1 := by
  intro l
  induction l with
  | nil => intro M h; simp at h
  | cons a t ih =>
    intro M h
    rw [List.foldl_cons]
    by_cases hai : a = i
    · subst hai
      apply fillFold_keeps_one
      rw [if_pos hk]
      unfold fillDiagonalOne
      rw [if_pos ⟨hex, rfl⟩]
    · rcases List.mem_cons.mp h with h' | h'
      · exact absurd h'.symm hai
      · exact ih _ h'

lemma gravityForcesUpdate_kin_row (kin : ℕ → Bool) (gravity : Vec3)
    (elt : TetElement) (acc : ℕ → ℝ) (r : ℕ)
    (hidx : ∀ a : Fin 4, elt.indices a % 3 = 0) (hr : kin (r / 3) = true) :
    gravityForcesUpdate kin gravity elt acc r = acc r := by
  unfold gravityForcesUpdate
  apply foldl_vec_apply_eq
  intro v a _
  by_cases ha : kin (elt.indices a / 3) = true
  · rw [if_pos ha]
  · rw [if_neg ha]
    apply addVec3At_ne
    intro i hri
    apply ha
    rw [← row_node_eq (elt.indices a) r i (hidx a) hri]
    exact hr

lemma assembleGravity_kin_row (vol : FEMVolume) (gravity : Vec3) (acc : ℕ → ℝ)
    (r : ℕ) (hidx : ∀ e ∈ vol.elements, ∀ a : Fin 4, e.indices a % 3 = 0)
    (hr : vol.kinematicNodes (r / 3) = true) :
    assembleGravity vol gravity acc r = acc r := by
  unfold assembleGravity
  split_ifs with hg
  · apply foldl_vec_apply_eq
    intro v e he
    split_ifs with hv
    · exact gravityForcesUpdate_kin_row vol.kinematicNodes gravity e v r (hidx e he) hr
    · rfl
  · rfl

lemma elementForcesUpdate_kin_row (vol : FEMVolume) (params : IntegrationParameters)
    (elt : TetElement) (acc : ℕ → ℝ) (r : ℕ)
    (hidx : ∀ a : Fin 4, elt.indices a % 3 = 0)
    (hr : vol.kinematicNodes (r / 3) = true) :
    (elementForcesUpdate vol params elt acc).2 r = acc r := by
  unfold elementForcesUpdate
  dsimp only
  apply foldl_vec_apply_eq
  intro v a _
  by_cases ha : vol.kinematicNodes (elt.indices a / 3) = true
  · rw [if_pos ha]
  · rw [if_neg ha]
    apply addVec3At_ne
    intro i hri
    apply ha
    rw [← row_node_eq (elt.indices a) r i (hidx a) hri]
    exact hr

lemma assembleElementForces_kin_row (vol : FEMVolume)
    (params : IntegrationParameters) :
    ∀ (l : List TetElement) (acc : ℕ → ℝ),
      (∀ e ∈ l, ∀ a : Fin 4, e.indices a % 3 = 0) →
      ∀ r : ℕ, vol.kinematicNodes (r / 3) = true →
      (assembleElementForces vol params l acc).2 r = acc r := by
  intro l
  induction l with
  | nil => intro acc _ r _; rfl
  | cons e t ih =>
    intro acc hidx r hr
    simp only [assembleElementForces]
    split_ifs with hv
    · dsimp only
      rw [ih _ (fun e' he' => hidx e' (List.mem_cons_of_mem e he')) r hr]
      exact elementForcesUpdate_kin_row vol params e acc r
        (hidx e (List.mem_cons_self e t)) hr
    · dsimp only
      exact ih _ (fun e' he' => hidx e' (List.mem_cons_of_mem e he')) r hr

lemma assembleStiffness_kin_row (vol : FEMVolume) (dt : ℝ) (M : ℕ → ℕ → ℝ)
    (r c : ℕ) (hidx : ∀ e ∈ vol.elements, ∀ a : Fin 4, e.indices a % 3 = 0)
    (hr : vol.kinematicNodes (r / 3) = true) :
    assembleStiffness vol dt M r c = M r c := by
  unfold assembleStiffness
  apply foldl_matrix_apply_eq
  intro M e he
  split_ifs with hv
  · exact elementStiffnessUpdate_kin_row vol.kinematicNodes _ _ _ _ e M r c
      (hidx e he) hr
  · rfl

lemma assembleStiffness_kin_col (vol : FEMVolume) (dt : ℝ) (M : ℕ → ℕ → ℝ)
    (r c : ℕ) (hidx : ∀ e ∈ vol.elements, ∀ a : Fin 4, e.indices a % 3 = 0)
    (hc : vol.kinematicNodes (c / 3) = true) :
    assembleStiffness vol dt M r c = M r c := by
  unfold assembleStiffness
  apply foldl_matrix_apply_eq
  intro M e he
  split_ifs with hv
  · exact elementStiffnessUpdate_kin_col vol.kinematicNodes _ _ _ _ e M r c
      (hidx e he) hc
  · rfl

lemma assembleMassWithDamping_kin_row (vol : FEMVolume) (dt : ℝ) (M : ℕ → ℕ → ℝ)
    (hidx : ∀ e ∈ vol.elements, ∀ a : Fin 4, e.indices a % 3 = 0)
    (i : ℕ) (hi : i < vol.nnodes) (hkin : vol.kinematicNodes i = true)
    (k : Fin 3) (c : ℕ) :
    assembleMassWithDamping vol dt M (3 * i + k) c
      = if c = 3 * i + k then 1 else M (3 * i + k) c := by
  have hk3 := k.isLt
  have hrkin : vol.kinematicNodes ((3 * i + (k : ℕ)) / 3) = true := by
    have h3 : (3 * i + (k : ℕ)) / 3 = i := by omega
    rw [h3]
    exact hkin
  unfold assembleMassWithDamping
  have hmass : (vol.elements.foldl (fun M elt =>
      if 0 < elt.volume then
        elementMassUpdate vol.kinematicNodes
          (elt.density * elt.volume / 20 * (1 + dt * vol.dampingCoeffs.1)) elt M
      else M) M) (3 * i + (k : ℕ)) c = M (3 * i + (k : ℕ)) c := by
    apply foldl_matrix_apply_eq
    intro M e he
    split_ifs with hv
    · exact elementMassUpdate_kin_row vol.kinematicNodes _ e M _ c (hidx e he) hrkin
    · rfl
  by_cases hc : c = 3 * i + (k : ℕ)
  · rw [if_pos hc, hc]
    exact fillFold_sets_one vol.kinematicNodes (3 * i + (k : ℕ)) i hkin ⟨k, rfl⟩
      (List.range vol.nnodes) _ (List.mem_range.mpr hi)
  · rw [if_neg hc, fillFold_offdiag vol.kinematicNodes (3 * i + (k : ℕ)) c hc]
    exact hmass

lemma assembleMassWithDamping_kin_col (vol : FEMVolume) (dt : ℝ) (M : ℕ → ℕ → ℝ)
    (hidx : ∀ e ∈ vol.elements, ∀ a : Fin 4, e.indices a % 3 = 0)
    (j : ℕ) (hkin : vol.kinematicNodes j = true) (q : Fin 3) (s : ℕ)
    (hne : s ≠ 3 * j + q) :
    assembleMassWithDamping vol dt M s (3 * j + q) = M s (3 * j + q) := by
  have hq3 := q.isLt
  have hckin : vol.kinematicNodes ((3 * j + (q : ℕ)) / 3) = true := by
    have h3 : (3 * j + (q : ℕ)) / 3 = j := by omega
    rw [h3]
    exact hkin
  unfold assembleMassWithDamping
  rw [fillFold_offdiag vol.kinematicNodes s (3 * j + (q : ℕ)) (fun hh => hne hh.symm)]
  apply foldl_matrix_apply_eq
  intro M e he
  split_ifs with hv
  · exact elementMassUpdate_kin_col vol.kinematicNodes _ e M s _ (hidx e he) hckin
  · rfl

lemma assembledAugmentedMass_kin_row (vol : FEMVolume) (dt : ℝ)
    (hidx : ∀ e ∈ vol.elements, ∀ a : Fin 4, e.indices a % 3 = 0)
    (i : ℕ) (hi : i < vol.nnodes) (hkin : vol.kinematicNodes i = true)
    (k : Fin 3) (c : ℕ) :
    assembledAugmentedMass vol dt (3 * i + k) c
      = if c = 3 * i + k then 1 else 0 := by
  have hk3 := k.isLt
  have hrkin : vol.kinematicNodes ((3 * i + (k : ℕ)) / 3) = true := by
    have h3 : (3 * i + (k : ℕ)) / 3 = i := by omega
    rw [h3]
    exact hkin
  unfold assembledAugmentedMass
  rw [assembleStiffness_kin_row vol dt _ _ c hidx hrkin,
    assembleMassWithDamping_kin_row vol dt _ hidx i hi hkin k c]

lemma assembledAugmentedMass_kin_col (vol : FEMVolume) (dt : ℝ)
    (hidx : ∀ e ∈ vol.elements, ∀ a : Fin 4, e.indices a % 3 = 0)
    (j : ℕ) (hkin : vol.kinematicNodes j = true) (q : Fin 3) (s : ℕ)
    (hne : s ≠ 3 * j + q) :
    assembledAugmentedMass vol dt s (3 * j + q) = 0 := by
  have hq3 := q.isLt
  have hckin : vol.kinematicNodes ((3 * j + (q : ℕ)) / 3) = true := by
    have h3 : (3 * j + (q : ℕ)) / 3 = j := by omega
    rw [h3]
    exact hkin
  unfold assembledAugmentedMass
  rw [assembleStiffness_kin_col vol dt _ s _ hidx hckin,
    assembleMassWithDamping_kin_col vol dt _ hidx j hkin q s hne]

/-- **C6.** For a FEM volume whose element node indices are node-aligned
(multiples of 3, as constructed), and a kinematic node `i`: the
assembled augmented mass has exactly the identity row at each of the
node's three DOF rows, no other row couples into a kinematic node's
columns, force assembly leaves the node's entries of the (zeroed)
acceleration vector at zero, and therefore any solution of
`augmented_mass · accel = forces` — in particular the Cholesky solve of
`update_acceleration` — has exactly zero acceleration on the kinematic
node's three DOFs, regardless of applied forces. -/
theorem fem_kinematic_node_isolated (vol : FEMVolume) (gravity : Vec3)
    (params : IntegrationParameters)
    (hidx : ∀ e ∈ vol.elements, ∀ a : Fin 4, e.indices a % 3 = 0)
    (i : ℕ) (hi : i < vol.nnodes) (hkin : vol.kinematicNodes i = true)
    (k : Fin 3) :
    (∀ c, assembledAugmentedMass vol params.dt (3 * i + k) c
      = if c = 3 * i + k then 1 else 0)
    ∧ (∀ (s j : ℕ) (q : Fin 3), vol.kinematicNodes j = true → s ≠ 3 * j + q →
        assembledAugmentedMass vol params.dt s (3 * j + q) = 0)
    ∧ ((assembleForces { vol with accelerations := fun _ => 0 } gravity params).2
        (3 * i + k) = 0)
    ∧ (∀ x : ℕ → ℝ,
        (∀ s, s < vol.ndofs →
          ∑ c ∈ Finset.range vol.ndofs,
            assembledAugmentedMass vol params.dt s c * x c
            = (assembleForces { vol with accelerations := fun _ => 0 }
                gravity params).2 s) →
        x (3 * i + k) = 0)
    ∧ ((∀ s, s < vol.ndofs →
          ∑ c ∈ Finset.range vol.ndofs,
            assembledAugmentedMass vol params.dt s c
              * (vol.updateAcceleration gravity params).accelerations c
            = (assembleForces { vol with accelerations := fun _ => 0 }
                gravity params).2 s) →
        (vol.updateAcceleration gravity params).accelerations (3 * i + k) = 0) := by
  have hk3 := k.isLt
  have hrkin : vol.kinematicNodes ((3 * i + (k : ℕ)) / 3) = true := by
    have h3 : (3 * i + (k : ℕ)) / 3 = i := by omega
    rw [h3]
    exact hkin
  have hrow := assembledAugmentedMass_kin_row vol params.dt hidx i hi hkin k
  have hforce : (assembleForces { vol with accelerations := fun _ => 0 }
      gravity params).2 (3 * i + (k : ℕ)) = 0 := by
    have e1 : (assembleElementForces { vol with accelerations := fun _ => 0 } params
        ({ vol with accelerations := fun _ => 0 } : FEMVolume).elements
        (assembleGravity { vol with accelerations := fun _ => 0 } gravity
          ({ vol with accelerations := fun _ => 0 } : FEMVolume).accelerations)).2
        (3 * i + (k : ℕ))
        = assembleGravity { vol with accelerations := fun _ => 0 } gravity
            ({ vol with accelerations := fun _ => 0 } : FEMVolume).accelerations
            (3 * i + (k : ℕ)) :=
      assembleElementForces_kin_row _ params _ _ hidx _ hrkin
    have e2 : assembleGravity { vol with accelerations := fun _ => 0 } gravity
        ({ vol with accelerations := fun _ => 0 } : FEMVolume).accelerations
        (3 * i + (k : ℕ))
        = ({ vol with accelerations := fun _ => 0 } : FEMVolume).accelerations
            (3 * i + (k : ℕ)) :=
      assembleGravity_kin_row _ gravity _ _ hidx hrkin
    exact e1.trans (e2.trans rfl)
  have hsolve : ∀ x : ℕ → ℝ,
      (∀ s, s < vol.ndofs →
        ∑ c ∈ Finset.range vol.ndofs,
          assembledAugmentedMass vol params.dt s c * x c
          = (assembleForces { vol with accelerations := fun _ => 0 }
              gravity params).2 s) →
      x (3 * i + (k : ℕ)) = 0 := by
    intro x hx
    have hrlt : 3 * i + (k : ℕ) < vol.ndofs := by
      unfold FEMVolume.ndofs
      omega
    have hr := hx (3 * i + (k : ℕ)) hrlt
    have hterm : ∀ c ∈ Finset.range vol.ndofs,
        assembledAugmentedMass vol params.dt (3 * i + (k : ℕ)) c * x c
          = if c = 3 * i + (k : ℕ) then x c else 0 := by
      intro c _
      rw [hrow c]
      split_ifs with hc
      · rw [one_mul]
      · rw [zero_mul]
    rw [Finset.sum_congr rfl hterm,
      Finset.sum_ite_eq' (Finset.range vol.ndofs) (3 * i + (k : ℕ)) x,
      if_pos (Finset.mem_range.mpr hrlt)] at hr
    exact hr.trans hforce
  refine ⟨hrow, ?_, hforce, hsolve, hsolve _⟩
  intro s j q hkinj hne
  exact assembledAugmentedMass_kin_col vol params.dt hidx j hkinj q s hne

/-- A one-node FEM volume whose single node is kinematic. -/
def kinematicWitnessVolume : FEMVolume :=
  { witnessFEMVolume with kinematicNodes := fun _ => true }

/-- Witness for C6: the concrete one-node kinematic volume. -/
theorem fem_kinematic_node_isolated_witness :
    (∀ e ∈ kinematicWitnessVolume.elements, ∀ a : Fin 4, e.indices a % 3 = 0)
      ∧ 0 < kinematicWitnessVolume.nnodes
      ∧ kinematicWitnessVolume.kinematicNodes 0 = true
      ∧ (∀ c, assembledAugmentedMass kinematicWitnessVolume witnessParams.dt
          (3 * 0 + ((0 : Fin 3) : ℕ)) c
          = if c = 3 * 0 + ((0 : Fin 3) : ℕ) then 1 else 0) := by
  have hidx : ∀ e ∈ kinematicWitnessVolume.elements, ∀ a : Fin 4,
      e.indices a % 3 = 0 := by
    intro e he a
    have hl : kinematicWitnessVolume.elements = [witnessTetElement] := rfl
    rw [hl, List.mem_singleton] at he
    subst he
    rfl
  have hi : 0 < kinematicWitnessVolume.nnodes := Nat.one_pos
  have hkin : kinematicWitnessVolume.kinematicNodes 0 = true := rfl
  exact ⟨hidx, hi, hkin,
    (fem_kinematic_node_isolated kinematicWitnessVolume 0 witnessParams hidx
      0 hi hkin 0).1⟩

/-- **C10.** For a rigid body or FEM volume whose status is not
`Dynamic`, `apply_force` and every force-application variant built on it
return immediately: the whole body state — velocities, accumulated
forces, positions, activation energy — is unchanged, and the body is not
woken even when `auto_wake_up` is true. -/
theorem apply_force_noop_when_not_dynamic (rb : RigidBody) (vol : FEMVolume)
    (hrb : rb.status ≠ BodyStatus.dynamic)
    (hvol : vol.status ≠ BodyStatus.dynamic) :
    (∀ (f : SpatialVec) (ft : ForceType) (w : Bool), rb.applyForce f ft w = rb)
    ∧ (∀ (f : SpatialVec) (ft : ForceType) (w : Bool),
        rb.applyLocalForce f ft w = rb)
    ∧ (∀ (f p : Vec3) (ft : ForceType) (w : Bool),
        rb.applyForceAtPoint f p ft w = rb)
    ∧ (∀ (f p : Vec3) (ft : ForceType) (w : Bool),
        rb.applyLocalForceAtPoint f p ft w = rb)
    ∧ (∀ (f p : Vec3) (ft : ForceType) (w : Bool),
        rb.applyForceAtLocalPoint f p ft w = rb)
    ∧ (∀ (f p : Vec3) (ft : ForceType) (w : Bool),
        rb.applyLocalForceAtLocalPoint f p ft w = rb)
    ∧ (∀ (pid : ℕ) (f p : Vec3) (ft : ForceType) (w : Bool),
        vol.applyForceAtLocalPoint pid f p ft w = vol)
    ∧ (∀ (pid : ℕ) (f : SpatialVec) (ft : ForceType) (w : Bool),
        vol.applyForce pid f ft w = vol)
    ∧ (∀ (pid : ℕ) (f : SpatialVec) (ft : ForceType) (w : Bool),
        vol.applyLocalForce pid f ft w = vol)
    ∧ (∀ (pid : ℕ) (f p : Vec3) (ft : ForceType) (w : Bool),
        vol.applyForceAtPoint pid f p ft w = vol)
    ∧ (∀ (pid : ℕ) (f p : Vec3) (ft : ForceType) (w : Bool),
        vol.applyLocalForceAtPoint pid f p ft w = vol)
    ∧ (∀ (pid : ℕ) (f p : Vec3) (ft : ForceType) (w : Bool),
        vol.applyLocalForceAtLocalPoint pid f p ft w = vol) := by
  have hbase : ∀ (f : SpatialVec) (ft : ForceType) (w : Bool),
      rb.applyForce f ft w = rb := by
    intro f ft w
    unfold RigidBody.applyForce
    rw [if_pos hrb]
  have hfbase : ∀ (pid : ℕ) (f p : Vec3) (ft : ForceType) (w : Bool),
      vol.applyForceAtLocalPoint pid f p ft w = vol := by
    intro pid f p ft w
    unfold FEMVolume.applyForceAtLocalPoint
    rw [if_pos hvol]
  refine ⟨hbase, ?_, ?_, ?_, ?_, ?_, hfbase, ?_, ?_, ?_, ?_, ?_⟩
  · intro f ft w
    unfold RigidBody.applyLocalForce
    exact hbase _ _ _
  · intro f p ft w
    unfold RigidBody.applyForceAtPoint
    exact hbase _ _ _
  · intro f p ft w
    unfold RigidBody.applyLocalForceAtPoint RigidBody.applyForceAtPoint
    exact hbase _ _ _
  · intro f p ft w
    unfold RigidBody.applyForceAtLocalPoint RigidBody.applyForceAtPoint
    exact hbase _ _ _
  · intro f p ft w
    unfold RigidBody.applyLocalForceAtLocalPoint
    exact hbase _ _ _
  · intro pid f ft w
    unfold FEMVolume.applyForce
    exact hfbase _ _ _ _ _
  · intro pid f ft w
    unfold FEMVolume.applyLocalForce FEMVolume.applyForce
    exact hfbase _ _ _ _ _
  · intro pid f p ft w
    unfold FEMVolume.applyForceAtPoint
    exact hfbase _ _ _ _ _
  · intro pid f p ft w
    unfold FEMVolume.applyLocalForceAtPoint
    exact hfbase _ _ _ _ _
  · intro pid f p ft w
    unfold FEMVolume.applyLocalForceAtLocalPoint
    exact hfbase _ _ _ _ _

/-- A static rigid body for the C10 witness. -/
def staticRigidBody : RigidBody :=
  { freshRigidBody with status := BodyStatus.static }

/-- A static FEM volume for the C10 witness. -/
def staticFEMVolume : FEMVolume :=
  { witnessFEMVolume with status := BodyStatus.static }

/-- Witness for C10: concrete static bodies are untouched by a force
applied with `auto_wake_up = true`. -/
theorem apply_force_noop_when_not_dynamic_witness :
    staticRigidBody.status ≠ BodyStatus.dynamic
      ∧ staticFEMVolume.status ≠ BodyStatus.dynamic
      ∧ staticRigidBody.applyForce SpatialVec.zero ForceType.force true
          = staticRigidBody
      ∧ staticFEMVolume.applyForce 0 SpatialVec.zero ForceType.impulse true
          = staticFEMVolume := by
  have h1 : staticRigidBody.status = BodyStatus.static := rfl
  have h2 : staticFEMVolume.status = BodyStatus.static := rfl
  have hrb : staticRigidBody.status ≠ BodyStatus.dynamic := by
    rw [h1]
    intro hc
    exact BodyStatus.noConfusion hc
  have hvol : staticFEMVolume.status ≠ BodyStatus.dynamic := by
    rw [h2]
    intro hc
    exact BodyStatus.noConfusion hc
  refine ⟨hrb, hvol, ?_, ?_⟩
  · exact (apply_force_noop_when_not_dynamic staticRigidBody staticFEMVolume
      hrb hvol).1 _ _ _
  · exact (apply_force_noop_when_not_dynamic staticRigidBody staticFEMVolume
      hrb hvol).2.2.2.2.2.2.2.1 _ _ _ _

end

end Nphysics
